import Mathlib

/-!
Verification of the BookRise Obsidian plugin core (API client response
normalization, streaming chat decoding, and the highlight-to-note
synchronizer).  The definitions below are a shallow embedding of the
TypeScript sources: `src/BookriseClient.ts` (HTTP response normalizer and
streaming chat decoder) and the plugin main module (note synchronizer,
`syncAllHighlights` / `syncBookHighlights` and its formatting helpers).

Strings are modelled with Lean `String` (a wrapper around `List Char`);
JavaScript regex-based replacements are modelled by explicit recursive
functions on character lists with the same left-to-right, non-overlapping
semantics.  JavaScript truthiness of optional string/number fields
(`if (hl.page)`, `if (hl.color)`, ...) is modelled explicitly: `none`,
`some ""` and `some 0` are falsy.
-/

/-- The apostrophe character, used inside generated note text. -/
def apos : String := String.mk [Char.ofNat 39]

/-- Characters replaced by `-` in `sanitizeFileName`
    (the regex character class from the source). -/
def isFsForbidden (c : Char) : Bool :=
  c = '/' ∨ c = '\\' ∨ c = ':' ∨ c = '*' ∨ c = '?' ∨ c = '"' ∨ c = '<' ∨ c = '>' ∨ c = '|'

/-- JavaScript `\s` whitespace class (the members relevant to text handled here). -/
def isJsWs (c : Char) : Bool :=
  c = ' ' ∨ c = '\t' ∨ c = '\n' ∨ c = '\r' ∨ c = '\x0b' ∨ c = '\x0c' ∨ c = ' '

/-- One pass of `.replace(/[\/\\:\*\?\"\<\>\|]/g, '-')`: each forbidden
    character becomes `-`. -/
def replaceForbidden (l : List Char) : List Char :=
  l.map fun c => if isFsForbidden c then '-' else c

/-- `.replace(/\s+/g, r)` for a single replacement character `r`: every maximal
    run of whitespace becomes one `r`.  `prevWs` records whether the previous
    character belonged to a whitespace run already replaced. -/
def collapseWsAux (r : Char) (prevWs : Bool) : List Char → List Char
  | [] => []
  | c :: cs =>
    if isJsWs c then (if prevWs then [] else [r]) ++ collapseWsAux r true cs
    else c :: collapseWsAux r false cs

/-- `.replace(/\s+/g, r)` on a string. -/
def collapseWs (r : Char) (s : String) : String :=
  String.mk (collapseWsAux r false s.data)

/-- `sanitizeFileName` from the plugin main module:
    `name.replace(/[\/\\:\*\?\"\<\>\|]/g, '-').replace(/\s+/g, ' ')`. -/
def sanitizeFileName (s : String) : String :=
  String.mk (collapseWsAux ' ' false (replaceForbidden s.data))

/-- `.replace(/c/g, rep)` for a single pattern character: global replacement. -/
def replaceCharL (c : Char) (rep : List Char) : List Char → List Char
  | [] => []
  | x :: xs => if x = c then rep ++ replaceCharL c rep xs else x :: replaceCharL c rep xs

/-- `.replace(/c/g, rep)` on strings. -/
def replaceChar (c : Char) (rep : String) (s : String) : String :=
  String.mk (replaceCharL c rep.data s.data)

/-- `.replace(/\/\//g, '/')`: the JavaScript global replace scans left to
    right without overlap, so `///` becomes `//`. -/
def collapseDoubleSlashL : List Char → List Char
  | [] => []
  | [c] => [c]
  | c1 :: c2 :: cs =>
    if c1 = '/' ∧ c2 = '/' then '/' :: collapseDoubleSlashL cs
    else c1 :: collapseDoubleSlashL (c2 :: cs)

/-- `.replace(/\/\//g, '/')` on strings. -/
def collapseDoubleSlash (s : String) : String :=
  String.mk (collapseDoubleSlashL s.data)

/-- JavaScript `String.prototype.trim()`. -/
def jsTrim (s : String) : String :=
  String.mk (((s.data.dropWhile isJsWs).reverse.dropWhile isJsWs).reverse)

/-- JavaScript `s.split(' ')`: split on each single space character;
    the empty string yields `[""]` and consecutive spaces yield empty pieces. -/
def splitOnSpaceL : List Char → List (List Char)
  | [] => [[]]
  | c :: cs =>
    if c = ' ' then [] :: splitOnSpaceL cs
    else
      match splitOnSpaceL cs with
      | [] => [[c]]
      | w :: ws => (c :: w) :: ws

/-- `s.split(' ')` on strings. -/
def jsSplitSpace (s : String) : List String :=
  (splitOnSpaceL s.data).map String.mk

/-- JavaScript `Array.prototype.join(sep)`. -/
def joinSep (sep : String) : List String → String
  | [] => ""
  | [x] => x
  | x :: xs => x ++ sep ++ joinSep sep xs

/-- `arr.slice(0, n).join(' ')` applied to `s.trim().split(' ')` — the
    "first `n` words" computation used for note titles. -/
def firstWords (n : Nat) (s : String) : String :=
  joinSep (" ") ((jsSplitSpace (jsTrim s)).take n)

/-- `forEach` with the element index (the aggregate-mode loop position,
    used to thread the per-iteration random block-id fallback). -/
def mapWithIdx (f : Nat → α → β) : Nat → List α → List β
  | _, [] => []
  | i, a :: as => f i a :: mapWithIdx f (i + 1) as

/-- `Array.from(new Set(xs))`: deduplicate keeping first occurrences in order. -/
def dedupFirstAux [BEq α] (seen : List α) : List α → List α
  | [] => []
  | a :: as => if seen.contains a then dedupFirstAux seen as else a :: dedupFirstAux (a :: seen) as

/-- `Array.from(new Set(xs))`. -/
def dedupFirst [BEq α] (l : List α) : List α := dedupFirstAux [] l

/-- JavaScript truthiness filter for an optional string field:
    an absent field and the empty string are both falsy. -/
def optStr (o : Option String) : Option String :=
  match o with
  | some s => if s = "" then none else some s
  | none => none

/-- JavaScript truthiness filter for an optional numeric field:
    an absent field and `0` are both falsy. -/
def optNum (o : Option Int) : Option Int :=
  match o with
  | some n => if n = 0 then none else some n
  | none => none

/-- `author.replace(/[^a-zA-Z0-9\-_]/g, '_')`. -/
def authorSlug (a : String) : String :=
  String.mk (a.data.map fun c =>
    if c.isAlpha ∨ c.isDigit ∨ c = '-' ∨ c = '_' then c else '_')

/-- `color.toLowerCase().replace(/\s+/g, '_')`. -/
def colorSlug (c : String) : String :=
  String.mk (collapseWsAux '_' false (c.data.map Char.toLower))

/-- `fileName.replace(/\.md$/, '')`: strip one trailing `.md` if present. -/
def stripMdSuffix (s : String) : String :=
  if (".md").data.isSuffixOf s.data then String.mk (s.data.take (s.data.length - 3)) else s

/-- `s.substring(0, n)`. -/
def jsSubstring (s : String) (n : Nat) : String := String.mk (s.data.take n)

/-!
## JSON values

A model of the JavaScript values produced by `JSON.parse`, together with the
JavaScript string coercion (used by `fullAnswer += v` and to describe the text
handed to `onChunk`) and JavaScript truthiness (`if (parsed.content)` ...).
-/

inductive Json where
  | jnull : Json
  | jbool : Bool → Json
  | jnum : Int → Json
  | jstr : String → Json
  | jarr : List Json → Json
  | jobj : List (String × Json) → Json

mutual

/-- Structural equality on JSON values (used to model the `Set` collapsing
    `cited_chapters`, whose elements are numbers in practice). -/
def Json.beq : Json → Json → Bool
  | .jnull, .jnull => true
  | .jbool a, .jbool b => a == b
  | .jnum a, .jnum b => a == b
  | .jstr a, .jstr b => a == b
  | .jarr a, .jarr b => Json.beqList a b
  | .jobj a, .jobj b => Json.beqObj a b
  | _, _ => false

def Json.beqList : List Json → List Json → Bool
  | [], [] => true
  | a :: as, b :: bs => Json.beq a b && Json.beqList as bs
  | _, _ => false

def Json.beqObj : List (String × Json) → List (String × Json) → Bool
  | [], [] => true
  | (k1, v1) :: as, (k2, v2) :: bs => k1 == k2 && Json.beq v1 v2 && Json.beqObj as bs
  | _, _ => false

end

instance : BEq Json := ⟨Json.beq⟩

mutual

/-- JavaScript `String(v)`: `null → "null"`, booleans and numbers print,
    arrays join their elements with `,` (where `null` elements print as the
    empty string), plain objects print as `[object Object]`. -/
def jsToString : Json → String
  | .jnull => "null"
  | .jbool true => "true"
  | .jbool false => "false"
  | .jnum n => toString n
  | .jstr s => s
  | .jarr xs => jsArrToString xs
  | .jobj _ => "[object Object]"

def jsArrToString : List Json → String
  | [] => ""
  | [x] => jsArrElem x
  | x :: xs => jsArrElem x ++ "," ++ jsArrToString xs

def jsArrElem : Json → String
  | .jnull => ""
  | j => jsToString j

end

/-- JavaScript truthiness of a value. -/
def jsTruthy : Json → Bool
  | .jnull => false
  | .jbool b => b
  | .jnum n => n ≠ 0
  | .jstr s => s ≠ ""
  | .jarr _ => true
  | .jobj _ => true

/-- Property access `v.name`: only (non-null) objects have own properties;
    `none` plays the role of `undefined`. -/
def Json.getField (j : Json) (name : String) : Option Json :=
  match j with
  | .jobj fields => fields.lookup name
  | _ => none

/-- Truthiness of a possibly-`undefined` value. -/
def jsTruthyOpt (o : Option Json) : Bool :=
  match o with
  | some j => jsTruthy j
  | none => false

/-!
## Streaming chat decoder (`BookriseClient.chat`, streaming branch)

The decoder consumes the stream line by line (the source splits each decoded
read on `'\n'`; `lines` below is the resulting line sequence).  `parse`
stands for `JSON.parse`, returning `none` when parsing throws.  The state
carries the aggregated answer, the accumulated `cited_chapters`, and — as
observable instrumentation — the list of string coercions of the values
passed to the `onChunk` callback, in call order.
-/

structure DecodeState where
  fullAnswer : String
  citedChapters : List Json
  emitted : List String

def DecodeState.init : DecodeState := ⟨"", [], []⟩

/-- One emission site: `fullAnswer += v; onChunk(v)` (the pair of statements
    repeated in each branch of the source). -/
def emitChunkSt (st : DecodeState) (v : Json) : DecodeState :=
  { st with fullAnswer := st.fullAnswer ++ jsToString v
            emitted := st.emitted ++ [jsToString v] }

/-- The body of the `try` block for one parsed payload.  A `null` payload is
    special: `parsed.content` on `null` throws a `TypeError`, which the
    surrounding `catch` swallows before any state was touched. -/
def processParsed (st : DecodeState) (parsed : Json) : DecodeState :=
  match parsed with
  | .jnull => st
  | _ =>
    let st1 :=
      if jsTruthyOpt (parsed.getField ("content")) then
        emitChunkSt st ((parsed.getField ("content")).getD .jnull)
      else if jsTruthyOpt (parsed.getField ("answer")) then
        emitChunkSt st ((parsed.getField ("answer")).getD .jnull)
      else if jsTruthyOpt (parsed.getField ("delta")) then
        emitChunkSt st ((parsed.getField ("delta")).getD .jnull)
      else
        match parsed with
        | .jstr s => emitChunkSt st (.jstr s)
        | _ => st
    match parsed.getField ("cited_chapters") with
    | some (.jarr cs) => { st1 with citedChapters := st1.citedChapters ++ cs }
    | _ => st1

/-- Processing of one stream line: only lines starting with `data: ` carry a
    payload (`line.slice(6)`); the `[DONE]` sentinel is skipped; a payload
    that fails to parse is dropped with a logged warning. -/
def processDataLine (parse : String → Option Json) (st : DecodeState) (line : String) :
    DecodeState :=
  if ("data: ").data.isPrefixOf line.data then
    if String.mk (line.data.drop 6) = "[DONE]" then st
    else
      match parse (String.mk (line.data.drop 6)) with
      | some parsed => processParsed st parsed
      | none => st
  else st

/-- The whole read/decode loop over the stream's lines. -/
def chatStream (parse : String → Option Json) (lines : List String) : DecodeState :=
  lines.foldl (processDataLine parse) DecodeState.init

/-- The `ChatResponse` value returned by `chat`. -/
structure ChatResponse where
  answer : String
  cited_paragraph_ids : List String
  cited_chapters : List Json

/-- The value returned after the stream ends:
    `{ answer: fullAnswer, cited_paragraph_ids: [], cited_chapters: Array.from(new Set(citedChapters)) }`. -/
def chatStreamResult (parse : String → Option Json) (lines : List String) : ChatResponse :=
  let st := chatStream parse lines
  ⟨st.fullAnswer, [], dedupFirst st.citedChapters⟩

/-- The spec's chunk-extraction contract (§4.3): try `content`, then
    `answer`, then `delta` (a field "matches" when its value is truthy, as in
    the duck-typed source checks), else a bare string payload is itself the
    chunk; at most one chunk per payload.  Stated from the spec's words for
    comparison with `processParsed`. -/
def bareStrChunk : Json → Option String
  | .jstr s => some s
  | _ => none

def specChunkOf (j : Json) : Option String :=
  if jsTruthyOpt (j.getField ("content")) then some (jsToString ((j.getField ("content")).getD .jnull))
  else if jsTruthyOpt (j.getField ("answer")) then some (jsToString ((j.getField ("answer")).getD .jnull))
  else if jsTruthyOpt (j.getField ("delta")) then some (jsToString ((j.getField ("delta")).getD .jnull))
  else bareStrChunk j

/-!
## HTTP response normalizer (`BookriseClient.request`)

The abstract executor hands back `{status, text}`; `parse` models
`JSON.parse` (returning `none` when it throws).  The outcome is either a
structured API error, a JavaScript value (`Json.jnull` standing for the
`null` returned on empty / 204 bodies), or `malformed` when the final
`JSON.parse(responseText)` throws (this exception escapes `request`).
-/

inductive ReqResult where
  | apiError : Int → String → ReqResult
  | ok : Json → ReqResult
  | malformed : ReqResult

/-- The error message body: `parsedError.detail || response.text`, where a
    `null` parse result makes the property access throw (leaving the raw
    text), a falsy/absent `detail` also falls back to the raw text, and an
    unparsable body keeps the raw text. -/
def errorBodyOf (parse : String → Option Json) (text : String) : String :=
  match parse text with
  | some .jnull => text
  | some j => if jsTruthyOpt (j.getField ("detail")) then jsToString ((j.getField ("detail")).getD .jnull) else text
  | none => text

/-- `BookriseClient.request` response handling. -/
def request (parse : String → Option Json) (status : Int) (text : String) : ReqResult :=
  if status < 200 ∨ status ≥ 300 then
    .apiError status
      ("Error calling BookRise API: Status " ++ toString status ++ " - " ++ errorBodyOf parse text)
  else if text = "" ∧ status ≠ 204 then .ok .jnull
  else if status = 204 then .ok .jnull
  else
    match parse text with
    | some j => .ok j
    | none => .malformed

/-!
## The data model and the `chat` entry point
-/

structure Book where
  id : String
  title : String
  author : Option String := none
  isbn : Option String := none
  tags : Option (List String) := none
  percent_read : Option Int := none
  assistant_id : Option String := none
deriving DecidableEq

structure Highlight where
  id : String
  book_id : Option String := none
  user_id : Option String := none
  cfi_range : Option String := none
  text_content : Option String := none
  page : Option Int := none
  location : Option String := none
  color : Option String := none
  note : Option String := none
  created_at : Option String := none
  updated_at : Option String := none
deriving DecidableEq

inductive ChatError where
  | invalidArgument : ChatError
  | notFound : String → ChatError
deriving DecidableEq

/-- The observable effect of one `chat(bookId, prompt, contextIds, onChunk)`
    call in streaming mode: the result (or validation error) plus whether the
    POST to the chat endpoint was issued.  `books` is the fresh `listBooks()`
    response fetched at the start of the call; `lines` is the body of the
    streaming response. -/
structure ChatCall where
  result : Except ChatError ChatResponse
  chatPostIssued : Bool

/-- `BookriseClient.chat`: reject empty `bookId`/`prompt`
    (`if (!bookId || !prompt) throw`), resolve the book against the fresh
    book list (`books.find(b => b.id === bookId)`, throwing `not found` when
    absent) — both before any chat POST — then stream and decode. -/
def chat (books : List Book) (bookId prompt : String)
    (parse : String → Option Json) (lines : List String) : ChatCall :=
  if bookId = "" ∨ prompt = "" then ⟨.error .invalidArgument, false⟩
  else
    match books.find? (fun b => b.id == bookId) with
    | none => ⟨.error (.notFound bookId), false⟩
    | some _ => ⟨.ok (chatStreamResult parse lines), true⟩

/-!
## Note synchronizer: content generation

Exact embeddings of the formatting helpers from the plugin main module.
`Settings` mirrors `BookrisePluginSettings`.
-/

structure Settings where
  bookriseApiKey : String
  bookriseSyncFolder : String
  createNotePerHighlight : Bool
deriving DecidableEq

/-- `DEFAULT_SETTINGS`. -/
def defaultSettings : Settings := ⟨"", "BookRise", false⟩

/-- `generateBookFrontmatter(book)`. -/
def generateBookFrontmatter (book : Book) : String :=
  let fm := "---\n" ++ "title: \"" ++ replaceChar ':' ("-") book.title ++ "\"\n"
            ++ "id: " ++ book.id ++ "\n"
  let existingBookTags := book.tags.getD []
  let fm := fm ++ (match optStr book.author with
    | some a => "author: \"" ++ a ++ "\"\n"
    | none => "")
  let pluginAddedTags := ["BookRise"] ++ (match optStr book.author with
    | some a => ["author/" ++ authorSlug a]
    | none => [])
  let fm := fm ++ (match optStr book.isbn with
    | some i => "isbn: \"" ++ i ++ "\"\n"
    | none => "")
  let fm := fm ++ (match book.percent_read with
    | some p => "percent_read: " ++ toString p ++ "\n"
    | none => "")
  let allTags := dedupFirst (existingBookTags ++ pluginAddedTags)
  let fm := fm ++ (if allTags = [] then ""
    else "tags: [" ++ joinSep (", ") (allTags.map fun t => "\"" ++ replaceChar ':' ("-") t ++ "\"") ++ "]\n")
  fm ++ "source: BookRise\n" ++ "---\n\n"

/-- The `noteTitle` computed inside `generateHighlightNoteFrontmatter`:
    first 7 words of the text (or `Note: ` plus first 6 words of the note),
    with `...` appended when truncated. -/
def highlightNoteTitle (hl : Highlight) : String :=
  match optStr hl.text_content with
  | some t =>
    let base := firstWords 7 t
    if (jsSplitSpace (jsTrim t)).length > 7 then base ++ "..." else base
  | none =>
    match optStr hl.note with
    | some n =>
      let base := "Note: " ++ firstWords 6 n
      if (jsSplitSpace (jsTrim n)).length > 6 then base ++ "..." else base
    | none => "BookRise Highlight"

/-- `generateHighlightNoteFrontmatter(hl, book, bookSanitizedFileNameForLink)`. -/
def generateHighlightNoteFrontmatter (hl : Highlight) (book : Book) (bookLink : String) : String :=
  let fm := "---\n"
            ++ "title: \"" ++ sanitizeFileName (replaceChar ':' ("-") (highlightNoteTitle hl)) ++ "\"\n"
            ++ "book: \"[[" ++ bookLink ++ "]]\"\n"
            ++ "book_id: " ++ book.id ++ "\n"
            ++ "highlight_id: " ++ hl.id ++ "\n"
  let fm := fm ++ (match optStr hl.color with
    | some c => "color: " ++ c ++ "\n"
    | none => "")
  let fm := fm ++ (match optNum hl.page with
    | some p => "page: " ++ toString p ++ "\n"
    | none => "")
  let fm := fm ++ (match optStr hl.location with
    | some loc => "location: \"" ++ loc ++ "\"\n"
    | none => "")
  let fm := fm ++ (match optStr hl.created_at with
    | some c => "highlight_created_at: " ++ c ++ "\n"
    | none => "")
  let tags := ["BookRise", "BookRiseHighlight"]
    ++ (match optStr book.author with
        | some a => ["author/" ++ authorSlug a]
        | none => [])
    ++ (match optStr hl.color with
        | some c => ["hlcolor/" ++ colorSlug c]
        | none => [])
  fm ++ "tags: [" ++ joinSep (", ") (tags.map fun t => "\"" ++ replaceChar ':' ("-") t ++ "\"") ++ "]\n"
     ++ "---\n\n"

/-- `formatSingleHighlightAsListItem(hl)` (aggregate mode).  `rand` stands for
    the `Math.random().toString(36).substring(2, 10)` fallback block id used
    only when the highlight id is falsy. -/
def formatSingleHighlightAsListItem (rand : String) (hl : Highlight) : String :=
  let blockId := if hl.id ≠ "" then jsSubstring hl.id 8 else rand
  let metadataParts : List String :=
    (match optNum hl.page with
     | some p => ["p. " ++ toString p]
     | none => [])
    ++ (match optStr hl.location with
        | some loc => ["loc. " ++ loc]
        | none => [])
  let metadataString := if metadataParts = [] then "" else " (" ++ joinSep (", ") metadataParts ++ ")"
  let colorTagString := match optStr hl.color with
    | some c => " #hlcolor/" ++ colorSlug c
    | none => ""
  let primaryLineContent := match optStr hl.text_content with
    | some t => replaceChar '\n' ("\n  ") t
    | none =>
      match optStr hl.note with
      | some n => "**Note:** " ++ replaceChar '\n' ("\n  ") n
      | none => ""
  let subNoteContent := match optStr hl.text_content with
    | some _ =>
      (match optStr hl.note with
       | some n => "  - **Note:** " ++ replaceChar '\n' ("\n    ") n ++ "\n"
       | none => "")
    | none => ""
  let finalPrimaryLine0 := jsTrim primaryLineContent
  let finalPrimaryLine1 :=
    if finalPrimaryLine0.length = 0 ∧ (metadataString.length > 0 ∨ colorTagString.length > 0)
    then (" ") else finalPrimaryLine0
  let finalPrimaryLine := finalPrimaryLine1 ++ metadataString ++ colorTagString
  let listItem := "- " ++ jsTrim finalPrimaryLine ++ " ^" ++ blockId ++ "\n"
  let listItem := if subNoteContent ≠ "" then listItem ++ subNoteContent else listItem
  listItem ++ "\n"

/-- `formatSingleHighlightContent(hl)` (the body of an individual note). -/
def formatSingleHighlightContent (hl : Highlight) : String :=
  (match optStr hl.text_content with
   | some t => t ++ "\n\n"
   | none => "")
  ++ (match optStr hl.note with
      | some n => "**Note:**\n" ++ n ++ "\n\n"
      | none => "")
  ++ (if optStr hl.text_content = none ∧ optStr hl.note = none
      then "(This highlight has no text or note content from BookRise.)\n" else "")

/-- The `noteTitlePrefix` variable of the per-highlight loop: first 5 words of
    the text, else `Note - ` plus first 4 words of the note, else `Highlight`,
    then sanitized. -/
def noteTitleHead (hl : Highlight) : String :=
  sanitizeFileName (match optStr hl.text_content with
    | some t => firstWords 5 t
    | none =>
      match optStr hl.note with
      | some n => "Note - " ++ firstWords 4 n
      | none => "Highlight")

/-- `noteFileName`: title head plus the first 8 characters of the sanitized
    highlight id, with the `.md` extension. -/
def noteFileName (hl : Highlight) : String :=
  noteTitleHead hl ++ " (" ++ jsSubstring (sanitizeFileName hl.id) 8 ++ ").md"

/-- The `- [[_Highlights/...|...]]` index line pushed onto `highlightLinks`. -/
def highlightLinkLine (hl : Highlight) : String :=
  "- [[_Highlights/" ++ stripMdSuffix (noteFileName hl) ++ "|" ++ noteTitleHead hl
    ++ " (" ++ (match optStr hl.color with | some c => c | none => "highlight") ++ ")]]"

/-- `bookFolderPath`: `` `${parent}/${sanitized}` `` with `//` collapsed. -/
def bookFolderPath (s : Settings) (book : Book) : String :=
  collapseDoubleSlash (s.bookriseSyncFolder ++ "/" ++ sanitizeFileName book.title)

/-- `mainBookFilePath`. -/
def mainBookFilePath (s : Settings) (book : Book) : String :=
  collapseDoubleSlash (bookFolderPath s book ++ "/" ++ sanitizeFileName book.title ++ ".md")

/-- `highlightsFolder` (no `//` collapsing in the source here). -/
def highlightsFolderPath (s : Settings) (book : Book) : String :=
  bookFolderPath s book ++ "/_Highlights"

/-- `noteFilePath` for one highlight note. -/
def highlightNotePath (s : Settings) (book : Book) (hl : Highlight) : String :=
  collapseDoubleSlash (highlightsFolderPath s book ++ "/" ++ noteFileName hl)

/-- The shared head of `mainBookContent`: frontmatter plus the `# title` line. -/
def mainBookContentBase (book : Book) : String :=
  generateBookFrontmatter book ++ "# " ++ book.title ++ "\n\n"

/-- The fixed introduction of the per-highlight index section. -/
def perHighlightIndexIntro : String :=
  "This book" ++ apos ++ "s highlights are stored as individual notes in the \"_Highlights\" subfolder.\n\n## Highlights Index\n"

/-!
## Abstract file store and the sync run

The vault is a finite path→entry map, represented as an association list in
which keys are unique (`FS.WF`).  `FS.set` replaces in place (so that writing
a path does not reorder the store), appending new paths at the end.
`ensureFolderExists` and `createOrUpdateFile` mirror the plugin helpers:
ensuring fails when the path is occupied by a file, and creating a file fails
when the path is occupied by a folder (`vault.create` throws).
-/

inductive VaultEntry where
  | folder : VaultEntry
  | file : String → VaultEntry
deriving DecidableEq

abbrev FS := List (String × VaultEntry)

def FS.set (fs : FS) (p : String) (v : VaultEntry) : FS :=
  if (fs.lookup p).isSome then fs.map (fun e => if e.1 = p then (e.1, v) else e)
  else fs ++ [(p, v)]

/-- Key uniqueness: the well-formedness invariant of a real vault. -/
def FS.WF (fs : FS) : Prop := (fs.map Prod.fst).Nodup

inductive SyncErr where
  | folderIsFile : String → SyncErr
  | fileIsFolder : String → SyncErr
  | fetchFailed : String → SyncErr
deriving DecidableEq

/-- `ensureFolderExists(folderPath)`. -/
def ensureFolderExists (fs : FS) (p : String) : Except SyncErr FS :=
  match fs.lookup p with
  | none => .ok (FS.set fs p .folder)
  | some .folder => .ok fs
  | some (.file _) => .error (.folderIsFile p)

/-- `createOrUpdateFile(filePath, content)`: modify an existing file, create
    at a free path, and fail when a folder occupies the path. -/
def createOrUpdateFile (fs : FS) (p : String) (content : String) : Except SyncErr FS :=
  match fs.lookup p with
  | some (.file _) => .ok (FS.set fs p (.file content))
  | some .folder => .error (.fileIsFolder p)
  | none => .ok (FS.set fs p (.file content))

/-- Outcome of a (per-book or whole) sync step: the resulting store, the
    failure if one was raised, and the `(path, content)` pairs successfully
    written, in write order. -/
structure SyncOut where
  fs : FS
  err : Option SyncErr
  writes : List (String × String)
deriving DecidableEq

/-- Run a sequence of `ensureFolderExists` calls, stopping at the first failure. -/
def runEnsures : List String → FS → FS × Option SyncErr
  | [], fs => (fs, none)
  | p :: ps, fs =>
    match ensureFolderExists fs p with
    | .ok fs1 => runEnsures ps fs1
    | .error e => (fs, some e)

/-- Run a sequence of `createOrUpdateFile` calls, stopping at the first
    failure and recording the successful writes. -/
def runWrites : List (String × String) → FS → SyncOut
  | [], fs => ⟨fs, none, []⟩
  | (p, c) :: ws, fs =>
    match createOrUpdateFile fs p c with
    | .ok fs1 =>
      let out := runWrites ws fs1
      ⟨out.fs, out.err, (p, c) :: out.writes⟩
    | .error e => ⟨fs, some e, []⟩

/-- All folder paths `syncBookHighlights` ensures, in order: the book folder,
    then (only in per-highlight mode with a non-empty highlight list) the
    `_Highlights` subfolder. -/
def bookSyncEnsures (s : Settings) (book : Book) (highlights : List Highlight) : List String :=
  [bookFolderPath s book]
    ++ (if ¬highlights.isEmpty ∧ s.createNotePerHighlight then [highlightsFolderPath s book] else [])

/-- All `(path, content)` pairs `syncBookHighlights` writes, in order,
    for a given highlight list.  `rand` supplies the random block-id fallback
    for the `i`-th aggregate list item (used only for an empty highlight id). -/
def bookSyncWrites (s : Settings) (book : Book) (highlights : List Highlight)
    (rand : Nat → String) : List (String × String) :=
  if highlights.isEmpty then
    [(mainBookFilePath s book,
      mainBookContentBase book
        ++ (if s.createNotePerHighlight then "No highlights found for this book.\n"
            else "# Highlights for " ++ book.title ++ "\n\n(No highlights found or synced for this book.)\n"))]
  else if s.createNotePerHighlight then
    (highlights.map fun hl =>
      (highlightNotePath s book hl,
       generateHighlightNoteFrontmatter hl book (sanitizeFileName book.title)
         ++ formatSingleHighlightContent hl))
    ++ [(mainBookFilePath s book,
         mainBookContentBase book ++ perHighlightIndexIntro
           ++ joinSep ("\n") (highlights.map highlightLinkLine) ++ "\n")]
  else
    [(mainBookFilePath s book,
      mainBookContentBase book ++ "# Highlights for " ++ book.title ++ "\n\n"
        ++ String.join (mapWithIdx (fun i hl => formatSingleHighlightAsListItem (rand i) hl) 0 highlights))]

/-- `syncBookHighlights(book)` with the highlight fetch abstracted: ensure the
    book folder, fetch the highlights (`listHighlights(book.id)`), ensure the
    `_Highlights` subfolder when needed, then perform the writes of the
    selected mode.  A failure at any point aborts the remaining steps. -/
def syncBookRun (s : Settings) (book : Book) (fetch : String → Except String (List Highlight))
    (rand : Nat → String) (fs : FS) : SyncOut :=
  match ensureFolderExists fs (bookFolderPath s book) with
  | .error e => ⟨fs, some e, []⟩
  | .ok fs1 =>
    match fetch book.id with
    | .error msg => ⟨fs1, some (.fetchFailed msg), []⟩
    | .ok highlights =>
      match runEnsures
          (if ¬highlights.isEmpty ∧ s.createNotePerHighlight then [highlightsFolderPath s book] else [])
          fs1 with
      | (fs2, some e) => ⟨fs2, some e, []⟩
      | (fs2, none) => runWrites (bookSyncWrites s book highlights rand) fs2

/-- `syncBookHighlights` for an already-fetched (unchanged) highlight list. -/
def syncBookHighlights (s : Settings) (book : Book) (highlights : List Highlight)
    (rand : Nat → String) (fs : FS) : SyncOut :=
  syncBookRun s book (fun _ => .ok highlights) rand fs

/-- The per-book loop of `syncAllHighlights`: each book is synced inside a
    `try`/`catch` that turns a failure into an error count increment, so later
    books still run; threading `(fs, successCount, errorCount)`. -/
def syncLoop (s : Settings) (fetch : String → Except String (List Highlight))
    (rand : Nat → String) : List Book → FS × Nat × Nat → FS × Nat × Nat
  | [], acc => acc
  | book :: books, (fs, succ, errs) =>
    let out := syncBookRun s book fetch rand fs
    match out.err with
    | none => syncLoop s fetch rand books (out.fs, succ + 1, errs)
    | some _ => syncLoop s fetch rand books (out.fs, succ, errs + 1)

/-- `syncAllHighlights` with `listBooks()` already resolved to `books`:
    an empty library ends the run with nothing processed; otherwise the root
    sync folder is ensured (a failure here aborts the whole run) and each book
    is processed in order. -/
def syncAllHighlights (s : Settings) (books : List Book)
    (fetch : String → Except String (List Highlight)) (rand : Nat → String)
    (fs : FS) : Except SyncErr (FS × Nat × Nat) :=
  if books.isEmpty then .ok (fs, 0, 0)
  else
    match ensureFolderExists fs s.bookriseSyncFolder with
    | .error e => .error e
    | .ok fs1 => .ok (syncLoop s fetch rand books (fs1, 0, 0))

/-- The content of the last write to path `q` in a write sequence. -/
def lastWrite (q : String) : List (String × String) → Option String
  | [] => none
  | (p, c) :: ws =>
    match lastWrite q ws with
    | some d => some d
    | none => if p = q then some c else none

/-- Ensure a list of folders, then perform a list of writes: the shape of
    every `syncBookHighlights` run (all its folder-ensuring steps precede all
    its file writes). -/
def runPlan (es : List String) (ws : List (String × String)) (fs : FS) : SyncOut :=
  match runEnsures es fs with
  | (fs1, none) => runWrites ws fs1
  | (fs1, some e) => ⟨fs1, some e, []⟩

/-!
## Concrete fixtures

`parseFixture` is a fragment of `JSON.parse`: on each listed literal it
returns exactly the value `JSON.parse` produces for it, and elsewhere it
reports a parse failure.  The remaining fixtures are small concrete inputs
used to instantiate the theorems below.
-/

def parseFixture : String → Option Json := fun s =>
  if s = "\"\"" then some (.jstr "") else
  if s = "\x7b\"content\":[]\x7d" then some (.jobj [("content", .jarr [])]) else
  if s = "\x7b\"content\":\"A\",\"answer\":\"B\"\x7d" then
    some (.jobj [("content", .jstr "A"), ("answer", .jstr "B")]) else
  if s = "\x7b\"a\":1\x7d" then some (.jobj [("a", .jnum 1)]) else
  none

def wBook : Book := { id := "b1", title := "T", author := some ("Al") }

def wBook2 : Book := { id := "b2", title := "U" }

def wH1 : Highlight := { id := "aaaaaaaaa", text_content := some ("hi there"), page := some 3 }

def wH2 : Highlight := { id := "bbbbbbbbb", note := some ("a note"), color := some ("Light Blue") }

def wSettings : Settings := { bookriseApiKey := "k", bookriseSyncFolder := "BookRise", createNotePerHighlight := false }

def wSettingsPer : Settings := { wSettings with createNotePerHighlight := true }

/-- A highlight fetch that fails for book `b2` and returns `[wH1]` otherwise. -/
def wFetch : String → Except String (List Highlight) := fun i =>
  if i = "b2" then .error ("network down") else .ok [wH1]

def wRand : Nat → String := fun _ => "r4nd0mid"

/-!
## Streaming decoder lemmas and claims
-/

theorem stringJoin_append_one (l : List String) (s : String) :
    String.join (l ++ [s]) = String.join l ++ s := by
  simp [String.join, List.foldl_append]

theorem jsToString_str (s : String) : jsToString (.jstr s) = s := by
  simp [jsToString]

/-- The `cited_chapters` accumulation step changes neither the aggregated
    answer nor the emitted chunks. -/
theorem citedStep_preserves (st1 : DecodeState) (j : Json) :
    (match j.getField ("cited_chapters") with
     | some (.jarr cs) => { st1 with citedChapters := st1.citedChapters ++ cs }
     | _ => st1).emitted = st1.emitted
    ∧ (match j.getField ("cited_chapters") with
       | some (.jarr cs) => { st1 with citedChapters := st1.citedChapters ++ cs }
       | _ => st1).fullAnswer = st1.fullAnswer := by
  constructor <;> (split <;> rfl)

/-- The chunks a parsed payload emits are exactly the priority-order
    extraction of the spec, one chunk at most. -/
theorem processParsed_chunks (st : DecodeState) (j : Json) :
    (processParsed st j).emitted = st.emitted ++ (specChunkOf j).toList := by
  cases j with
  | jnull => simp [processParsed, specChunkOf, Json.getField, jsTruthyOpt, bareStrChunk]
  | jstr s =>
    simp only [processParsed, citedStep_preserves, specChunkOf]
    split_ifs <;> simp [emitChunkSt, jsToString_str, bareStrChunk]
  | jbool b =>
    simp only [processParsed, citedStep_preserves, specChunkOf]
    split_ifs <;> simp [emitChunkSt, bareStrChunk]
  | jnum n =>
    simp only [processParsed, citedStep_preserves, specChunkOf]
    split_ifs <;> simp [emitChunkSt, bareStrChunk]
  | jarr xs =>
    simp only [processParsed, citedStep_preserves, specChunkOf]
    split_ifs <;> simp [emitChunkSt, bareStrChunk]
  | jobj fields =>
    simp only [processParsed, citedStep_preserves, specChunkOf]
    split_ifs <;> simp [emitChunkSt, bareStrChunk]

/-- Companion to `processParsed_chunks` for the aggregated answer. -/
theorem processParsed_answer (st : DecodeState) (j : Json) :
    (processParsed st j).fullAnswer
      = st.fullAnswer ++ String.join (specChunkOf j).toList := by
  cases j with
  | jnull => simp [processParsed, specChunkOf, Json.getField, jsTruthyOpt, String.join, bareStrChunk]
  | jstr s =>
    simp only [processParsed, citedStep_preserves, specChunkOf]
    split_ifs <;> simp [emitChunkSt, String.join, jsToString_str, bareStrChunk]
  | jbool b =>
    simp only [processParsed, citedStep_preserves, specChunkOf]
    split_ifs <;> simp [emitChunkSt, String.join, bareStrChunk]
  | jnum n =>
    simp only [processParsed, citedStep_preserves, specChunkOf]
    split_ifs <;> simp [emitChunkSt, String.join, bareStrChunk]
  | jarr xs =>
    simp only [processParsed, citedStep_preserves, specChunkOf]
    split_ifs <;> simp [emitChunkSt, String.join, bareStrChunk]
  | jobj fields =>
    simp only [processParsed, citedStep_preserves, specChunkOf]
    split_ifs <;> simp [emitChunkSt, String.join, bareStrChunk]

/-- Decomposition of a well-formed data line. -/
theorem processDataLine_parsed (parse : String → Option Json) (st : DecodeState)
    (payload : String) (j : Json) (hd : payload ≠ "[DONE]") (hp : parse payload = some j) :
    processDataLine parse st ("data: " ++ payload) = processParsed st j := by
  have hdata : ("data: " ++ payload).data = ("data: ").data ++ payload.data :=
    String.data_append _ _
  have hpre : ("data: ").data.isPrefixOf ("data: " ++ payload).data := by
    rw [hdata]
    exact List.isPrefixOf_iff_prefix.mpr ⟨payload.data, rfl⟩
  have hlen : ("data: ").data.length = 6 := rfl
  have hdrop : ("data: " ++ payload).data.drop 6 = payload.data := by
    rw [hdata, ← hlen, List.drop_left]
  have hmk : String.mk payload.data = payload := rfl
  rw [processDataLine, if_pos hpre, hdrop, hmk, if_neg hd, hp]

theorem processDataLine_done (parse : String → Option Json) (st : DecodeState) :
    processDataLine parse st ("data: [DONE]") = st := rfl

/-- C3: a `data:` line whose payload is the literal sentinel `[DONE]` is
    silently skipped — no `onChunk` call happens for it, and it contributes
    nothing to the decoder state, so the decode of any stream is unchanged by
    inserting or removing such a line. -/
theorem c3_done_sentinel_silent (parse : String → Option Json) (pre post : List String) :
    chatStream parse (pre ++ "data: [DONE]" :: post) = chatStream parse (pre ++ post) := by
  simp [chatStream, List.foldl_append, processDataLine_done]

/-- C4: for a data line whose payload parses as JSON, the emitted chunk is
    exactly the spec's fixed-priority extraction (`content`, else `answer`,
    else `delta`, else a bare string payload; a field matches when its value
    is truthy), and at most one chunk is emitted for the line even when
    several fields are present. -/
theorem c4_priority_extraction (parse : String → Option Json) (st : DecodeState)
    (payload : String) (j : Json) (hd : payload ≠ "[DONE]") (hp : parse payload = some j) :
    (processDataLine parse st ("data: " ++ payload)).emitted
      = st.emitted ++ (specChunkOf j).toList
    ∧ (specChunkOf j).toList.length ≤ 1 := by
  constructor
  · rw [processDataLine_parsed parse st payload j hd hp, processParsed_chunks]
  · cases specChunkOf j <;> simp

/-- Witness for C4: a payload carrying both `content` and `answer` emits the
    single chunk `"A"` — `content` wins and only one chunk is produced. -/
theorem c4_priority_extraction_witness :
    ("\x7b\"content\":\"A\",\"answer\":\"B\"\x7d" : String) ≠ "[DONE]"
    ∧ parseFixture ("\x7b\"content\":\"A\",\"answer\":\"B\"\x7d")
        = some (.jobj [("content", .jstr "A"), ("answer", .jstr "B")])
    ∧ (processDataLine parseFixture DecodeState.init
        ("data: " ++ "\x7b\"content\":\"A\",\"answer\":\"B\"\x7d")).emitted
        = [] ++ (specChunkOf (.jobj [("content", .jstr "A"), ("answer", .jstr "B")])).toList := by
  refine ⟨by decide, by rfl, ?_⟩
  exact (c4_priority_extraction parseFixture DecodeState.init
    ("\x7b\"content\":\"A\",\"answer\":\"B\"\x7d")
    (.jobj [("content", .jstr "A"), ("answer", .jstr "B")]) (by decide) (by rfl)).1

/-- C5: the `answer` field of the result returned after the stream ends is
    the concatenation, in emission order, of exactly the chunks passed to the
    `onChunk` callback. -/
theorem c5_answer_is_concat_of_chunks (parse : String → Option Json) (lines : List String) :
    (chatStreamResult parse lines).answer = String.join ((chatStream parse lines).emitted) := by
  show (chatStream parse lines).fullAnswer = String.join ((chatStream parse lines).emitted)
  rw [chatStream]
  have key : ∀ (ls : List String) (st : DecodeState),
      st.fullAnswer = String.join st.emitted →
      (ls.foldl (processDataLine parse) st).fullAnswer
        = String.join ((ls.foldl (processDataLine parse) st).emitted) := by
    intro ls
    induction ls with
    | nil => intro st h; exact h
    | cons line rest ih =>
      intro st h
      refine ih (processDataLine parse st line) ?_
      rw [processDataLine]
      split
      · split
        · exact h
        · cases hp : parse (String.mk (line.data.drop 6)) with
          | none => exact h
          | some j =>
            rw [processParsed_answer, processParsed_chunks, h]
            cases hc : specChunkOf j with
            | none => simp [String.join]
            | some c => simp [stringJoin_append_one, String.join]
      · exact h
  exact key lines DecodeState.init rfl

/-- C9 counterexample: the claim that every `onChunk` invocation passes a
    non-empty string is false on the code.  The line `data: ""` (a bare JSON
    empty string) reaches the `typeof parsed === 'string'` branch, which has
    no truthiness guard, so `onChunk("")` is called; likewise the payload
    `{"content":[]}` has a truthy `content` whose string coercion is empty. -/
theorem c9_counterexample :
    (chatStream parseFixture ["data: \"\""]).emitted = [""]
    ∧ (chatStream parseFixture ["data: \x7b\"content\":[]\x7d"]).emitted = [""] := by
  constructor <;>
    simp [chatStream, processDataLine, processParsed, emitChunkSt, jsToString,
      jsArrToString, jsArrElem, parseFixture, Json.getField, jsTruthy, jsTruthyOpt,
      DecodeState.init, List.lookup]

/-- A truthy option whose value is constrained to a string or null must be a
    non-empty string, and its string coercion is that string. -/
theorem truthyStrField (o : Option Json)
    (hso : ∀ v, o = some v → (∃ s, v = .jstr s) ∨ v = .jnull)
    (ht : jsTruthyOpt o = true) :
    ∃ s, s ≠ "" ∧ jsToString (o.getD .jnull) = s := by
  cases o with
  | none => simp [jsTruthyOpt] at ht
  | some v =>
    rcases hso v rfl with ⟨s, rfl⟩ | rfl
    · refine ⟨s, ?_, by simp [Option.getD, jsToString_str]⟩
      intro h
      subst h
      simp [jsTruthyOpt, jsTruthy] at ht
    · simp [jsTruthyOpt, jsTruthy] at ht

/-- Under the string-or-null field shape, a chunk extracted from a non-string
    payload is non-empty. -/
theorem specChunkOf_nonempty (j : Json) (hnotstr : ∀ s, j ≠ .jstr s)
    (hfields : ∀ name v, name ∈ ["content", "answer", "delta"] →
      j.getField name = some v → (∃ s, v = .jstr s) ∨ v = .jnull)
    (c : String) (hc : specChunkOf j = some c) : c ≠ "" := by
  rw [specChunkOf] at hc
  by_cases h1 : jsTruthyOpt (j.getField ("content")) = true
  · obtain ⟨s, hs, hjs⟩ := truthyStrField _ (fun v hv => hfields _ v (by simp) hv) h1
    rw [if_pos h1, hjs] at hc
    exact (Option.some.inj hc) ▸ hs
  · rw [if_neg h1] at hc
    by_cases h2 : jsTruthyOpt (j.getField ("answer")) = true
    · obtain ⟨s, hs, hjs⟩ := truthyStrField _ (fun v hv => hfields _ v (by simp) hv) h2
      rw [if_pos h2, hjs] at hc
      exact (Option.some.inj hc) ▸ hs
    · rw [if_neg h2] at hc
      by_cases h3 : jsTruthyOpt (j.getField ("delta")) = true
      · obtain ⟨s, hs, hjs⟩ := truthyStrField _ (fun v hv => hfields _ v (by simp) hv) h3
        rw [if_pos h3, hjs] at hc
        exact (Option.some.inj hc) ▸ hs
      · rw [if_neg h3] at hc
        cases j with
        | jstr s => exact absurd rfl (hnotstr s)
        | jnull => simp [bareStrChunk] at hc
        | jbool b => simp [bareStrChunk] at hc
        | jnum n => simp [bareStrChunk] at hc
        | jarr xs => simp [bareStrChunk] at hc
        | jobj fields => simp [bareStrChunk] at hc

/-- C9 amended: for a payload that is not a bare JSON string and whose
    `content`/`answer`/`delta` values — the only fields the extraction chain
    reads — are strings (or null/absent), every chunk passed to `onChunk` is a
    non-empty string: an empty-string field value is falsy and falls through
    the priority chain.  All other fields (`cited_chapters` arrays, `done` and
    `status` flags, ...) are unconstrained. -/
theorem c9_amended_nonempty_chunks (st : DecodeState) (j : Json)
    (hnotstr : ∀ s, j ≠ .jstr s)
    (hfields : ∀ name v, name ∈ ["content", "answer", "delta"] →
      j.getField name = some v → (∃ s, v = .jstr s) ∨ v = .jnull) :
    (processParsed st j).emitted = st.emitted
    ∨ ∃ c, c ≠ "" ∧ (processParsed st j).emitted = st.emitted ++ [c] := by
  have hchunks := processParsed_chunks st j
  cases hc : specChunkOf j with
  | none => left; rw [hchunks, hc]; simp
  | some c =>
    right
    exact ⟨c, specChunkOf_nonempty j hnotstr hfields c hc, by rw [hchunks, hc]; simp⟩

/-- Witness for the amended C9: a `{"content":"x","cited_chapters":[3]}`
    payload — carrying a non-string metadata field — emits exactly the
    non-empty chunk `"x"`. -/
theorem c9_amended_nonempty_chunks_witness :
    (processParsed DecodeState.init
        (.jobj [("content", .jstr "x"), ("cited_chapters", .jarr [.jnum 3])])).emitted = []
    ∨ ∃ c, c ≠ ""
        ∧ (processParsed DecodeState.init
            (.jobj [("content", .jstr "x"), ("cited_chapters", .jarr [.jnum 3])])).emitted
          = [] ++ [c] :=
  c9_amended_nonempty_chunks DecodeState.init
    (.jobj [("content", .jstr "x"), ("cited_chapters", .jarr [.jnum 3])])
    (fun s h => by cases h)
    (fun name v hname hv => by
      simp only [List.mem_cons, List.not_mem_nil, or_false] at hname
      rcases hname with rfl | rfl | rfl
      · rw [Json.getField, List.lookup] at hv
        rw [show (("content" : String) == "content") = true from rfl] at hv
        exact .inl ⟨"x", (Option.some.inj hv).symm⟩
      · rw [Json.getField, List.lookup] at hv
        rw [show (("answer" : String) == "content") = false from rfl] at hv
        rw [List.lookup] at hv
        rw [show (("answer" : String) == "cited_chapters") = false from rfl] at hv
        cases hv
      · rw [Json.getField, List.lookup] at hv
        rw [show (("delta" : String) == "content") = false from rfl] at hv
        rw [List.lookup] at hv
        rw [show (("delta" : String) == "cited_chapters") = false from rfl] at hv
        cases hv)

/-!
## HTTP normalizer and chat validation claims
-/

/-- C6: for a 204 response the normalizer returns null regardless of the
    body; for a 2xx (non-204) response with an empty body it returns null
    rather than an error; for a 2xx (non-204) response with a non-empty body
    it returns the JSON-parsed body. -/
theorem c6_success_normalization (parse : String → Option Json) (status : Int) (text : String) :
    (status = 204 → request parse status text = .ok .jnull)
    ∧ (200 ≤ status → status < 300 → status ≠ 204 → text = "" →
        request parse status text = .ok .jnull)
    ∧ (200 ≤ status → status < 300 → status ≠ 204 → text ≠ "" →
        ∀ j, parse text = some j → request parse status text = .ok j) := by
  refine ⟨?_, ?_, ?_⟩
  · intro h204
    subst h204
    rw [request, if_neg (by omega)]
    rw [if_neg (by rintro ⟨-, h⟩; exact h rfl), if_pos rfl]
  · intro hlo hhi hne htext
    rw [request, if_neg (by omega), if_pos ⟨htext, hne⟩]
  · intro hlo hhi hne htext j hj
    rw [request, if_neg (by omega), if_neg (by simp [htext]), if_neg hne, hj]

/-- Witness for C6 at concrete responses: a 204 with body `"x"`, a 200 with
    an empty body, and a 200 with body `{"a":1}`. -/
theorem c6_success_normalization_witness :
    request parseFixture 204 ("x") = .ok .jnull
    ∧ request parseFixture 200 ("") = .ok .jnull
    ∧ request parseFixture 200 ("\x7b\"a\":1\x7d") = .ok (.jobj [("a", .jnum 1)]) :=
  ⟨(c6_success_normalization parseFixture 204 ("x")).1 rfl,
   (c6_success_normalization parseFixture 200 ("")).2.1 (by omega) (by omega) (by omega) rfl,
   (c6_success_normalization parseFixture 200 ("\x7b\"a\":1\x7d")).2.2 (by omega) (by omega)
     (by omega) (by decide) (.jobj [("a", .jnum 1)]) (by rfl)⟩

/-- C7 counterexample: the claim quantifies over every `bookId` absent from
    the book list, but for the absent id `""` the code throws the
    invalid-argument error (`bookId and prompt are required`) before the book
    lookup, not the not-found error, so the claim as stated is false. -/
theorem c7_counterexample :
    (chat [] ("") ("hello") parseFixture []).result = .error .invalidArgument
    ∧ (chat [] ("") ("hello") parseFixture []).result ≠ .error (.notFound ("")) := by
  constructor
  · rfl
  · intro h
    have : (Except.error ChatError.invalidArgument : Except ChatError ChatResponse)
        = .error (.notFound ("")) := by
      rw [← h]; rfl
    cases this

/-- C7 amended: for every non-empty `bookId` absent from the freshly fetched
    book list and every non-empty prompt, `chat` fails with the not-found
    error and the POST to the chat endpoint is never issued. -/
theorem c7_amended_notfound_blocks_post (books : List Book) (bookId prompt : String)
    (parse : String → Option Json) (lines : List String)
    (hb : bookId ≠ "") (hp : prompt ≠ "") (habs : ∀ b ∈ books, b.id ≠ bookId) :
    chat books bookId prompt parse lines = ⟨.error (.notFound bookId), false⟩ := by
  rw [chat, if_neg (by simp [hb, hp])]
  have hfind : books.find? (fun b => b.id == bookId) = none := by
    rw [List.find?_eq_none]
    intro b hbmem
    simpa using habs b hbmem
  rw [hfind]

/-- Witness for the amended C7: a library with one book `b1`, queried with the
    unknown id `zzz`. -/
theorem c7_amended_notfound_blocks_post_witness :
    chat [wBook] ("zzz") ("hello") parseFixture [] = ⟨.error (.notFound ("zzz")), false⟩ :=
  c7_amended_notfound_blocks_post [wBook] ("zzz") ("hello") parseFixture []
    (by decide) (by decide) (by decide)

/-!
## Sanitization claims
-/

theorem collapseWsAux_mem (r : Char) :
    ∀ (l : List Char) (b : Bool) (c : Char), c ∈ collapseWsAux r b l → c = r ∨ c ∈ l := by
  intro l
  induction l with
  | nil => intro b c hc; simp [collapseWsAux] at hc
  | cons x xs ih =>
    intro b c hc
    rw [collapseWsAux] at hc
    by_cases hx : isJsWs x = true
    · rw [if_pos hx] at hc
      rcases List.mem_append.mp hc with h1 | h2
      · cases b with
        | true => simp at h1
        | false =>
          simp at h1
          exact .inl h1
      · rcases ih true c h2 with h | h
        · exact .inl h
        · exact .inr (List.mem_cons_of_mem x h)
    · rw [if_neg hx] at hc
      rcases List.mem_cons.mp hc with rfl | h
      · exact .inr (List.mem_cons_self _ _)
      · rcases ih false c h with h | h
        · exact .inl h
        · exact .inr (List.mem_cons_of_mem x h)

theorem replaceForbidden_of_clean (l : List Char) (h : ∀ c ∈ l, isFsForbidden c = false) :
    replaceForbidden l = l := by
  induction l with
  | nil => rfl
  | cons x xs ih =>
    rw [replaceForbidden, List.map_cons, if_neg (by rw [h x (List.mem_cons_self _ _)]; simp)]
    exact congrArg (x :: ·) (ih fun c hc => h c (List.mem_cons_of_mem x hc))

theorem replaceForbidden_clean (l : List Char) :
    ∀ c ∈ replaceForbidden l, isFsForbidden c = false := by
  intro c hc
  rw [replaceForbidden] at hc
  rcases List.mem_map.mp hc with ⟨x, hx, rfl⟩
  by_cases hfx : isFsForbidden x = true
  · rw [if_pos hfx]
    decide
  · rw [if_neg hfx]
    simpa using hfx

/-- The output of a whitespace-collapsing pass: every whitespace character in
    it is the replacement `r`, no two adjacent characters are both whitespace,
    and in the `prevWs = true` state the output cannot start with whitespace. -/
theorem collapseWsAux_shape (r : Char) :
    ∀ (l : List Char),
      ((∀ c ∈ collapseWsAux r false l, isJsWs c = true → c = r)
        ∧ List.Chain' (fun a b => ¬(isJsWs a = true ∧ isJsWs b = true)) (collapseWsAux r false l))
      ∧ ((∀ c ∈ collapseWsAux r true l, isJsWs c = true → c = r)
        ∧ List.Chain' (fun a b => ¬(isJsWs a = true ∧ isJsWs b = true)) (collapseWsAux r true l)
        ∧ ∀ c, (collapseWsAux r true l).head? = some c → isJsWs c = false) := by
  intro l
  induction l with
  | nil => exact ⟨⟨by simp [collapseWsAux], by simp [collapseWsAux]⟩,
      by simp [collapseWsAux], by simp [collapseWsAux], by simp [collapseWsAux]⟩
  | cons x xs ih =>
    obtain ⟨⟨ihf_mem, ihf_chain⟩, ⟨iht_mem, iht_chain, iht_head⟩⟩ := ih
    by_cases hx : isJsWs x = true
    · have hfalse : collapseWsAux r false (x :: xs) = r :: collapseWsAux r true xs := by
        rw [collapseWsAux, if_pos hx]
        rfl
      have htrue : collapseWsAux r true (x :: xs) = collapseWsAux r true xs := by
        rw [collapseWsAux, if_pos hx]
        rfl
      refine ⟨⟨?_, ?_⟩, ?_, ?_, ?_⟩
      · rw [hfalse]
        intro c hc hwc
        rcases List.mem_cons.mp hc with rfl | h
        · rfl
        · exact iht_mem c h hwc
      · rw [hfalse]
        rw [List.chain'_cons']
        refine ⟨?_, iht_chain⟩
        intro h hh hcontra
        have hh2 : (collapseWsAux r true xs).head? = some h := hh
        rw [iht_head h hh2] at hcontra
        exact Bool.false_ne_true hcontra.2
      · rw [htrue]; exact iht_mem
      · rw [htrue]; exact iht_chain
      · rw [htrue]; exact iht_head
    · have hfalse : collapseWsAux r false (x :: xs) = x :: collapseWsAux r false xs := by
        rw [collapseWsAux, if_neg hx]
      have htrue : collapseWsAux r true (x :: xs) = x :: collapseWsAux r false xs := by
        rw [collapseWsAux, if_neg hx]
      have hmem : ∀ c ∈ x :: collapseWsAux r false xs, isJsWs c = true → c = r := by
        intro c hc hwc
        rcases List.mem_cons.mp hc with rfl | h
        · exact absurd hwc hx
        · exact ihf_mem c h hwc
      have hchain : List.Chain' (fun a b => ¬(isJsWs a = true ∧ isJsWs b = true))
          (x :: collapseWsAux r false xs) := by
        rw [List.chain'_cons']
        refine ⟨?_, ihf_chain⟩
        intro h hh hcontra
        exact hx hcontra.1
      refine ⟨⟨by rw [hfalse]; exact hmem, by rw [hfalse]; exact hchain⟩,
        by rw [htrue]; exact hmem, by rw [htrue]; exact hchain, ?_⟩
      rw [htrue]
      intro c hc
      have hxc : x = c := Option.some.inj hc
      subst hxc
      simpa using hx

/-- A list already in collapsed shape is a fixed point of the whitespace pass. -/
theorem collapseWsAux_fix_both (r : Char) :
    ∀ (l : List Char), (∀ c ∈ l, isJsWs c = true → c = r) →
      List.Chain' (fun a b => ¬(isJsWs a = true ∧ isJsWs b = true)) l →
      collapseWsAux r false l = l
      ∧ ((∀ c, l.head? = some c → isJsWs c = false) → collapseWsAux r true l = l) := by
  intro l
  induction l with
  | nil => exact fun _ _ => ⟨rfl, fun _ => rfl⟩
  | cons x xs ih =>
    intro hall hchain
    rw [List.chain'_cons'] at hchain
    obtain ⟨hhead, hchain_xs⟩ := hchain
    have hall_xs : ∀ c ∈ xs, isJsWs c = true → c = r :=
      fun c hc => hall c (List.mem_cons_of_mem x hc)
    obtain ⟨ihf, iht⟩ := ih hall_xs hchain_xs
    constructor
    · by_cases hx : isJsWs x = true
      · have hxr : x = r := hall x (List.mem_cons_self _ _) hx
        rw [collapseWsAux, if_pos hx]
        have hxs_fix : collapseWsAux r true xs = xs := by
          refine iht ?_
          intro c hc
          have hmem : c ∈ (xs.head? : Option Char) := hc
          by_cases hwc : isJsWs c = true
          · exact absurd ⟨hx, hwc⟩ (hhead c hmem)
          · simpa using hwc
        rw [hxs_fix, hxr]
        rfl
      · rw [collapseWsAux, if_neg hx, ihf]
    · intro hheadok
      by_cases hx : isJsWs x = true
      · exact absurd hx (by rw [hheadok x rfl]; simp)
      · rw [collapseWsAux, if_neg hx, ihf]

/-- C10: `sanitizeFileName` is idempotent — re-sanitizing an already
    sanitized book title or highlight title never changes the derived file or
    folder name. -/
theorem c10_sanitize_idempotent (s : String) :
    sanitizeFileName (sanitizeFileName s) = sanitizeFileName s := by
  rw [sanitizeFileName, sanitizeFileName]
  have hclean : replaceForbidden (collapseWsAux ' ' false (replaceForbidden s.data))
      = collapseWsAux ' ' false (replaceForbidden s.data) := by
    refine replaceForbidden_of_clean _ ?_
    intro c hc
    rcases collapseWsAux_mem ' ' (replaceForbidden s.data) false c hc with rfl | hcl
    · decide
    · exact replaceForbidden_clean _ c hcl
  obtain ⟨⟨hmem, hchain⟩, _⟩ := collapseWsAux_shape ' ' (replaceForbidden s.data)
  rw [show (String.mk (collapseWsAux ' ' false (replaceForbidden s.data))).data
      = collapseWsAux ' ' false (replaceForbidden s.data) from rfl]
  rw [hclean, (collapseWsAux_fix_both ' ' _ hmem hchain).1]

/-!
## Per-book failure isolation (sync run)
-/

theorem syncLoop_append (s : Settings) (fetch : String → Except String (List Highlight))
    (rand : Nat → String) (l1 l2 : List Book) :
    ∀ acc, syncLoop s fetch rand (l1 ++ l2) acc
      = syncLoop s fetch rand l2 (syncLoop s fetch rand l1 acc) := by
  induction l1 with
  | nil => intro acc; rfl
  | cons b bs ih =>
    rintro ⟨fs, sc, ec⟩
    rw [List.cons_append, syncLoop, syncLoop]
    cases hout : (syncBookRun s b fetch rand fs).err with
    | none => exact ih _
    | some e => exact ih _

theorem syncLoop_counts (s : Settings) (fetch : String → Except String (List Highlight))
    (rand : Nat → String) :
    ∀ (books : List Book) (fs : FS) (sc ec : Nat),
      (syncLoop s fetch rand books (fs, sc, ec)).2.1
        + (syncLoop s fetch rand books (fs, sc, ec)).2.2
        = sc + ec + books.length := by
  intro books
  induction books with
  | nil => intro fs sc ec; simp [syncLoop]
  | cons b bs ih =>
    intro fs sc ec
    rw [syncLoop]
    cases hout : (syncBookRun s b fetch rand fs).err with
    | none =>
      rw [ih]
      simp
      omega
    | some e =>
      rw [ih]
      simp
      omega

/-- C8: a failure raised while syncing one book is caught at that book's
    boundary and counted as one failed book; the remaining books are still
    processed (the loop continues on the post-failure store with the error
    count incremented), and the final report's success and failure counts
    always sum to the number of books in the run. -/
theorem c8_per_book_failure_isolated (s : Settings)
    (fetch : String → Except String (List Highlight)) (rand : Nat → String)
    (fs0 : FS) (pre post : List Book) (bad : Book) (acc1 : FS × Nat × Nat)
    (hpre : syncLoop s fetch rand pre (fs0, 0, 0) = acc1)
    (hbad : (syncBookRun s bad fetch rand acc1.1).err ≠ none) :
    syncLoop s fetch rand (pre ++ bad :: post) (fs0, 0, 0)
      = syncLoop s fetch rand post
          ((syncBookRun s bad fetch rand acc1.1).fs, acc1.2.1, acc1.2.2 + 1)
    ∧ (syncLoop s fetch rand (pre ++ bad :: post) (fs0, 0, 0)).2.1
        + (syncLoop s fetch rand (pre ++ bad :: post) (fs0, 0, 0)).2.2
        = (pre ++ bad :: post).length := by
  constructor
  · rw [syncLoop_append, hpre]
    obtain ⟨fs1, sc1, ec1⟩ := acc1
    rw [syncLoop]
    cases hout : (syncBookRun s bad fetch rand fs1).err with
    | none => exact absurd hout hbad
    | some e => rfl
  · calc (syncLoop s fetch rand (pre ++ bad :: post) (fs0, 0, 0)).2.1
        + (syncLoop s fetch rand (pre ++ bad :: post) (fs0, 0, 0)).2.2
        = 0 + 0 + (pre ++ bad :: post).length := syncLoop_counts s fetch rand _ fs0 0 0
    _ = (pre ++ bad :: post).length := by omega

/-- Witness for C8: book `b1` syncs, `b2`'s highlight fetch fails, and the
    trailing `b1` is still processed; counts come out as 2 synced, 1 failed. -/
theorem c8_per_book_failure_isolated_witness :
    (syncLoop wSettings wFetch wRand ([wBook] ++ wBook2 :: [wBook]) ([], 0, 0)
      = syncLoop wSettings wFetch wRand [wBook]
          ((syncBookRun wSettings wBook2 wFetch wRand
             (syncLoop wSettings wFetch wRand [wBook] ([], 0, 0)).1).fs,
           (syncLoop wSettings wFetch wRand [wBook] ([], 0, 0)).2.1,
           (syncLoop wSettings wFetch wRand [wBook] ([], 0, 0)).2.2 + 1)
     ∧ (syncLoop wSettings wFetch wRand ([wBook] ++ wBook2 :: [wBook]) ([], 0, 0)).2.1
         + (syncLoop wSettings wFetch wRand ([wBook] ++ wBook2 :: [wBook]) ([], 0, 0)).2.2
         = ([wBook] ++ wBook2 :: [wBook]).length)
    ∧ (syncLoop wSettings wFetch wRand ([wBook] ++ wBook2 :: [wBook]) ([], 0, 0)).2.2 = 1 :=
  ⟨c8_per_book_failure_isolated wSettings wFetch wRand [] [wBook] [wBook] wBook2
      (syncLoop wSettings wFetch wRand [wBook] ([], 0, 0)) rfl (by decide),
   by decide⟩

/-!
## Path shape lemmas (mode-switch claim)
-/

theorem collapseDoubleSlashL_fix :
    ∀ (l : List Char), List.Chain' (fun a b => ¬(a = '/' ∧ b = '/')) l →
      collapseDoubleSlashL l = l := by
  intro l
  induction l with
  | nil => intro; rfl
  | cons c1 rest ih =>
    cases rest with
    | nil => intro; rfl
    | cons c2 cs =>
      intro hchain
      rw [List.chain'_cons] at hchain
      rw [collapseDoubleSlashL, if_neg hchain.1]
      exact congrArg (c1 :: ·) (ih hchain.2)

theorem collapseDoubleSlash_eq_self (s : String)
    (h : List.Chain' (fun a b => ¬(a = '/' ∧ b = '/')) s.data) :
    collapseDoubleSlash s = s :=
  String.ext (collapseDoubleSlashL_fix s.data h)

theorem chain'_ns_of_slashFree (l : List Char) (h : '/' ∉ l) :
    List.Chain' (fun a b => ¬(a = '/' ∧ b = '/')) l := by
  induction l with
  | nil => simp
  | cons x xs ih =>
    rw [List.chain'_cons']
    refine ⟨?_, ih fun hx => h (List.mem_cons_of_mem x hx)⟩
    intro y hy hcontra
    exact h (hcontra.1 ▸ List.mem_cons_self x xs)

theorem chain'_ns_glueL (l1 l2 : List Char) (h1 : '/' ∉ l1) (h1ne : l1 ≠ [])
    (h2 : List.Chain' (fun a b => ¬(a = '/' ∧ b = '/')) l2)
    (h2head : ∀ c, l2.head? = some c → c ≠ '/') :
    List.Chain' (fun a b => ¬(a = '/' ∧ b = '/')) (l1 ++ '/' :: l2)
    ∧ ∀ c, (l1 ++ '/' :: l2).head? = some c → c ≠ '/' := by
  constructor
  · rw [List.chain'_append]
    refine ⟨chain'_ns_of_slashFree l1 h1, ?_, ?_⟩
    · rw [List.chain'_cons']
      refine ⟨?_, h2⟩
      intro y hy hcontra
      exact h2head y hy hcontra.2
    · intro x hx y hy hcontra
      have hxl : x ∈ l1 := List.mem_of_mem_getLast? hx
      exact h1 (hcontra.1 ▸ hxl)
  · intro c hc
    cases l1 with
    | nil => exact absurd rfl h1ne
    | cons a as =>
      rw [List.cons_append, List.head?_cons] at hc
      have hac : a = c := Option.some.inj hc
      intro hslash
      exact h1 (by rw [hac, hslash]; exact List.mem_cons_self _ _)

theorem sanitize_no_slash (x : String) : '/' ∉ (sanitizeFileName x).data := by
  intro h
  rcases collapseWsAux_mem ' ' (replaceForbidden x.data) false '/' h with h1 | h2
  · cases h1
  · have hc := replaceForbidden_clean x.data '/' h2
    simp [isFsForbidden] at hc

theorem sanitize_ne_nil (x : String) (hx : x ≠ "") : (sanitizeFileName x).data ≠ [] := by
  have hxd : x.data ≠ [] := fun h => hx (String.ext h)
  cases hd : x.data with
  | nil => exact absurd hd hxd
  | cons c cs =>
    show collapseWsAux ' ' false (replaceForbidden x.data) ≠ []
    rw [hd, replaceForbidden, List.map_cons, collapseWsAux]
    by_cases hc : isJsWs (if isFsForbidden c then '-' else c) = true
    · rw [if_pos hc]
      simp
    · rw [if_neg hc]
      simp

theorem noteFileName_no_slash (hl : Highlight) : '/' ∉ (noteFileName hl).data := by
  intro h
  rw [noteFileName] at h
  simp only [String.data_append] at h
  rcases List.mem_append.mp h with h' | hlast
  · rcases List.mem_append.mp h' with h'' | hsub
    · rcases List.mem_append.mp h'' with hhead | hparen
      · exact sanitize_no_slash _ hhead
      · simp at hparen
    · rw [jsSubstring] at hsub
      exact sanitize_no_slash hl.id (List.mem_of_mem_take hsub)
  · simp at hlast

theorem noteFileName_ne_nil (hl : Highlight) : (noteFileName hl).data ≠ [] := by
  rw [noteFileName]
  simp [String.data_append]

theorem head?_ne_slash_of_no_slash (l : List Char) (h : '/' ∉ l) :
    ∀ c, l.head? = some c → c ≠ '/' :=
  fun _ hc hs => h (hs ▸ List.mem_of_mem_head? hc)

theorem bookFolderPath_expand (stg : Settings) (book : Book)
    (hf : stg.bookriseSyncFolder ≠ "") (hfs : '/' ∉ stg.bookriseSyncFolder.data) :
    bookFolderPath stg book = stg.bookriseSyncFolder ++ "/" ++ sanitizeFileName book.title := by
  rw [bookFolderPath]
  apply collapseDoubleSlash_eq_self
  have hdata : (stg.bookriseSyncFolder ++ "/" ++ sanitizeFileName book.title).data
      = stg.bookriseSyncFolder.data ++ '/' :: (sanitizeFileName book.title).data := by
    have h1 : ("/" : String).data = ['/'] := rfl
    simp [String.data_append, h1]
  rw [hdata]
  have hfne : stg.bookriseSyncFolder.data ≠ [] := fun h => hf (String.ext h)
  exact (chain'_ns_glueL _ _ hfs hfne
    (chain'_ns_of_slashFree _ (sanitize_no_slash book.title))
    (head?_ne_slash_of_no_slash _ (sanitize_no_slash book.title))).1

theorem highlightNotePath_expand (stg : Settings) (book : Book) (hl : Highlight)
    (hf : stg.bookriseSyncFolder ≠ "") (hfs : '/' ∉ stg.bookriseSyncFolder.data)
    (ht : book.title ≠ "") :
    highlightNotePath stg book hl
      = stg.bookriseSyncFolder ++ "/" ++ sanitizeFileName book.title ++ "/_Highlights/"
          ++ noteFileName hl := by
  have hfne : stg.bookriseSyncFolder.data ≠ [] := fun h => hf (String.ext h)
  have g1 := chain'_ns_glueL ("_Highlights" : String).data (noteFileName hl).data
      (by decide) (by decide)
      (chain'_ns_of_slashFree _ (noteFileName_no_slash hl))
      (head?_ne_slash_of_no_slash _ (noteFileName_no_slash hl))
  have g2 := chain'_ns_glueL (sanitizeFileName book.title).data
      (("_Highlights" : String).data ++ '/' :: (noteFileName hl).data)
      (sanitize_no_slash book.title) (sanitize_ne_nil book.title ht) g1.1 g1.2
  have g3 := chain'_ns_glueL stg.bookriseSyncFolder.data
      ((sanitizeFileName book.title).data
        ++ '/' :: (("_Highlights" : String).data ++ '/' :: (noteFileName hl).data))
      hfs hfne g2.1 g2.2
  apply String.ext
  show collapseDoubleSlashL ((highlightsFolderPath stg book ++ "/" ++ noteFileName hl).data) = _
  rw [highlightsFolderPath, bookFolderPath_expand stg book hf hfs]
  have h1 : ("/" : String).data = ['/'] := rfl
  have h2 : ("/_Highlights" : String).data = '/' :: ("_Highlights" : String).data := by decide
  have h3 : ("/_Highlights/" : String).data
      = '/' :: (("_Highlights" : String).data ++ ['/']) := by decide
  have hdat : ((stg.bookriseSyncFolder ++ "/" ++ sanitizeFileName book.title ++ "/_Highlights")
        ++ "/" ++ noteFileName hl).data
      = stg.bookriseSyncFolder.data
        ++ '/' :: ((sanitizeFileName book.title).data
          ++ '/' :: (("_Highlights" : String).data ++ '/' :: (noteFileName hl).data)) := by
    simp [String.data_append, h1, h2]
  rw [hdat, collapseDoubleSlashL_fix _ g3.1]
  simp [String.data_append, h1, h3]

theorem string_join_two (a b : String) : String.join [a, b] = a ++ b := by
  show ("" ++ a) ++ b = a ++ b
  apply String.ext
  simp [String.data_append]

/-- C2: for a book with exactly the highlights `[h1, h2]`, aggregate mode
    writes exactly one note file — the main book note, whose body carries the
    two formatted list items in API order — while per-highlight mode writes
    exactly two individual highlight notes under the book folder's
    `_Highlights` subfolder followed by the main book note, whose index
    section carries one link line per highlight note.  The side conditions on
    the sync folder and title keep the `//`-collapsing of paths inert. -/
theorem c2_mode_switch (k f : String) (book : Book) (h1 h2 : Highlight) (rand : Nat → String)
    (hf : f ≠ "") (hfs : '/' ∉ f.data) (ht : book.title ≠ "") :
    bookSyncWrites ⟨k, f, false⟩ book [h1, h2] rand
      = [(mainBookFilePath ⟨k, f, false⟩ book,
          mainBookContentBase book ++ "# Highlights for " ++ book.title ++ "\n\n"
            ++ (formatSingleHighlightAsListItem (rand 0) h1
                ++ formatSingleHighlightAsListItem (rand 1) h2))]
    ∧ bookSyncWrites ⟨k, f, true⟩ book [h1, h2] rand
      = [(f ++ "/" ++ sanitizeFileName book.title ++ "/_Highlights/" ++ noteFileName h1,
          generateHighlightNoteFrontmatter h1 book (sanitizeFileName book.title)
            ++ formatSingleHighlightContent h1),
         (f ++ "/" ++ sanitizeFileName book.title ++ "/_Highlights/" ++ noteFileName h2,
          generateHighlightNoteFrontmatter h2 book (sanitizeFileName book.title)
            ++ formatSingleHighlightContent h2),
         (mainBookFilePath ⟨k, f, true⟩ book,
          mainBookContentBase book ++ perHighlightIndexIntro
            ++ (highlightLinkLine h1 ++ "\n" ++ highlightLinkLine h2) ++ "\n")] := by
  constructor
  · rw [bookSyncWrites]
    rw [if_neg (by simp), if_neg (by simp)]
    rw [show (mapWithIdx (fun i hl => formatSingleHighlightAsListItem (rand i) hl) 0 [h1, h2])
        = [formatSingleHighlightAsListItem (rand 0) h1, formatSingleHighlightAsListItem (rand 1) h2]
      from rfl]
    rw [string_join_two]
  · rw [bookSyncWrites]
    rw [if_neg (by simp), if_pos (by simp)]
    simp only [List.map_cons, List.map_nil, List.cons_append, List.nil_append]
    rw [highlightNotePath_expand ⟨k, f, true⟩ book h1 hf hfs ht,
        highlightNotePath_expand ⟨k, f, true⟩ book h2 hf hfs ht]
    rfl

/-- Witness for C2 at a concrete book, two highlights, and the default sync
    folder. -/
theorem c2_mode_switch_witness :
    bookSyncWrites ⟨"k", "BookRise", false⟩ wBook [wH1, wH2] wRand
      = [(mainBookFilePath ⟨"k", "BookRise", false⟩ wBook,
          mainBookContentBase wBook ++ "# Highlights for " ++ wBook.title ++ "\n\n"
            ++ (formatSingleHighlightAsListItem (wRand 0) wH1
                ++ formatSingleHighlightAsListItem (wRand 1) wH2))]
    ∧ bookSyncWrites ⟨"k", "BookRise", true⟩ wBook [wH1, wH2] wRand
      = [(("BookRise" : String) ++ "/" ++ sanitizeFileName wBook.title ++ "/_Highlights/"
            ++ noteFileName wH1,
          generateHighlightNoteFrontmatter wH1 wBook (sanitizeFileName wBook.title)
            ++ formatSingleHighlightContent wH1),
         (("BookRise" : String) ++ "/" ++ sanitizeFileName wBook.title ++ "/_Highlights/"
            ++ noteFileName wH2,
          generateHighlightNoteFrontmatter wH2 wBook (sanitizeFileName wBook.title)
            ++ formatSingleHighlightContent wH2),
         (mainBookFilePath ⟨"k", "BookRise", true⟩ wBook,
          mainBookContentBase wBook ++ perHighlightIndexIntro
            ++ (highlightLinkLine wH1 ++ "\n" ++ highlightLinkLine wH2) ++ "\n")] :=
  c2_mode_switch ("k") ("BookRise") wBook wH1 wH2 wRand (by decide) (by decide) (by decide)

/-!
## Idempotence of the per-book sync

The file-store operations of one `syncBookHighlights` run are its folder
ensures followed by its writes (`runPlan`).  A successful run leaves every
ensured path a folder and every written path a file holding the content of
its last write; replaying the same plan is then the identity on the store.
-/

theorem lookup_map_set_self (l : List (String × VaultEntry)) (p : String) (v : VaultEntry)
    (h : (l.lookup p).isSome) :
    (l.map (fun e => if e.1 = p then (e.1, v) else e)).lookup p = some v := by
  induction l with
  | nil => simp at h
  | cons e es ih =>
    obtain ⟨q, w⟩ := e
    by_cases hqp : q = p
    · subst hqp
      simp [List.lookup_cons]
    · rw [List.map_cons]
      have he : (if (q, w).1 = p then ((q, w).1, v) else (q, w)) = (q, w) := if_neg hqp
      have hb : (p == q) = false := beq_eq_false_iff_ne.mpr (Ne.symm hqp)
      rw [he]
      rw [List.lookup_cons] at h ⊢
      rw [hb] at h ⊢
      exact ih h

theorem lookup_map_set_ne (l : List (String × VaultEntry)) (p q : String) (v : VaultEntry)
    (hqp : q ≠ p) :
    (l.map (fun e => if e.1 = p then (e.1, v) else e)).lookup q = l.lookup q := by
  induction l with
  | nil => simp
  | cons e es ih =>
    obtain ⟨r, w⟩ := e
    rw [List.map_cons]
    by_cases hrp : r = p
    · subst hrp
      have he : (if (r, w).1 = r then ((r, w).1, v) else (r, w)) = (r, v) := if_pos rfl
      rw [he, List.lookup_cons, List.lookup_cons]
      have hb : (q == r) = false := beq_eq_false_iff_ne.mpr hqp
      rw [hb]
      exact ih
    · have he : (if (r, w).1 = p then ((r, w).1, v) else (r, w)) = (r, w) := if_neg hrp
      rw [he, List.lookup_cons, List.lookup_cons]
      cases hb : q == r
      · exact ih
      · rfl

theorem FS.lookup_set_self (fs : FS) (p : String) (v : VaultEntry) :
    (FS.set fs p v).lookup p = some v := by
  rw [FS.set]
  by_cases h : (fs.lookup p).isSome
  · rw [if_pos h]
    exact lookup_map_set_self fs p v h
  · rw [if_neg h]
    rw [Option.not_isSome_iff_eq_none] at h
    rw [List.lookup_append, h, Option.none_or, List.lookup_cons_self]

theorem FS.lookup_set_ne (fs : FS) (p q : String) (v : VaultEntry) (hqp : q ≠ p) :
    (FS.set fs p v).lookup q = fs.lookup q := by
  rw [FS.set]
  by_cases h : (fs.lookup p).isSome
  · rw [if_pos h]
    exact lookup_map_set_ne fs p q v hqp
  · rw [if_neg h]
    rw [List.lookup_append]
    have hone : (([(p, v)] : FS).lookup q) = none := by
      rw [List.lookup_cons]
      rw [beq_eq_false_iff_ne.mpr hqp]
      rfl
    rw [hone]
    cases fs.lookup q <;> rfl

theorem map_id_of_mem (l : List (String × VaultEntry))
    (f : String × VaultEntry → String × VaultEntry) (h : ∀ e ∈ l, f e = e) : l.map f = l := by
  induction l with
  | nil => rfl
  | cons e es ih =>
    rw [List.map_cons, h e (List.mem_cons_self _ _), ih fun x hx => h x (List.mem_cons_of_mem e hx)]

theorem set_same_aux :
    ∀ (l : FS) (p : String) (v : VaultEntry), l.lookup p = some v →
      (l.map Prod.fst).Nodup → l.map (fun e => if e.1 = p then (e.1, v) else e) = l := by
  intro l
  induction l with
  | nil => intro p v h _; cases h
  | cons e es ih =>
    intro p v h hwf
    obtain ⟨q, w⟩ := e
    rw [List.map_cons, List.nodup_cons] at hwf
    rw [List.map_cons]
    by_cases hqp : q = p
    · subst hqp
      rw [List.lookup_cons_self] at h
      obtain rfl : w = v := Option.some.inj h
      have hhead : (if ((q, w) : String × VaultEntry).1 = q then (((q, w) : String × VaultEntry).1, w) else (q, w)) = (q, w) := by
        rw [if_pos rfl]
      rw [hhead]
      congr 1
      apply map_id_of_mem
      intro x hx
      have hne : x.1 ≠ q := by
        intro hq
        have hmm : x.1 ∈ es.map Prod.fst := List.mem_map_of_mem Prod.fst hx
        rw [hq] at hmm
        exact hwf.1 hmm
      exact if_neg hne
    · have hhead : (if ((q, w) : String × VaultEntry).1 = p then (((q, w) : String × VaultEntry).1, v) else (q, w)) = (q, w) :=
        if_neg hqp
      rw [hhead]
      congr 1
      apply ih p v ?_ hwf.2
      rw [List.lookup_cons, beq_eq_false_iff_ne.mpr (Ne.symm hqp)] at h
      exact h

theorem FS.set_same (fs : FS) (p : String) (v : VaultEntry)
    (h : fs.lookup p = some v) (hwf : FS.WF fs) : FS.set fs p v = fs := by
  rw [FS.set, if_pos (by rw [h]; rfl)]
  exact set_same_aux fs p v h hwf

theorem FS.keys_set_present (fs : FS) (p : String) (v : VaultEntry)
    (h : (fs.lookup p).isSome) : (FS.set fs p v).map Prod.fst = fs.map Prod.fst := by
  rw [FS.set, if_pos h, List.map_map]
  apply List.map_congr_left
  intro e he
  by_cases hep : e.1 = p
  · simp [hep]
  · simp [hep]

theorem FS.WF_set (fs : FS) (p : String) (v : VaultEntry) (hwf : FS.WF fs) :
    FS.WF (FS.set fs p v) := by
  rw [FS.WF]
  by_cases h : (fs.lookup p).isSome
  · rw [FS.keys_set_present fs p v h]
    exact hwf
  · rw [FS.set, if_neg h, List.map_append, List.map_cons]
    rw [List.nodup_append]
    refine ⟨hwf, List.nodup_singleton p, ?_⟩
    intro q hq hmem
    have : q ≠ p := by
      intro hqp
      subst hqp
      rw [Option.not_isSome_iff_eq_none, List.lookup_eq_none_iff] at h
      obtain ⟨e, he, rfl⟩ := List.mem_map.mp hq
      have := h e he
      simp at this
    simp at hmem
    exact this hmem

theorem runEnsures_preserves (es : List String) :
    ∀ (fs fs1 : FS), runEnsures es fs = (fs1, none) →
      ∀ q e, fs.lookup q = some e → fs1.lookup q = some e := by
  induction es with
  | nil =>
    intro fs fs1 h q e hq
    obtain rfl : fs = fs1 := congrArg Prod.fst h
    exact hq
  | cons p ps ih =>
    intro fs fs1 h q e hq
    rw [runEnsures] at h
    cases hens : ensureFolderExists fs p with
    | error err => rw [hens] at h; cases congrArg Prod.snd h
    | ok fs' =>
      rw [hens] at h
      rw [ensureFolderExists] at hens
      cases hlp : fs.lookup p with
      | none =>
        rw [hlp] at hens
        obtain rfl : FS.set fs p .folder = fs' := congrArg id (Except.ok.inj hens)
        have hqp : q ≠ p := fun hqp => by rw [hqp, hlp] at hq; cases hq
        exact ih _ _ h q e (by rw [FS.lookup_set_ne fs p q .folder hqp]; exact hq)
      | some entry =>
        cases entry with
        | folder =>
          rw [hlp] at hens
          obtain rfl : fs = fs' := congrArg id (Except.ok.inj hens)
          exact ih _ _ h q e hq
        | file c => rw [hlp] at hens; cases hens

theorem runEnsures_folders (es : List String) :
    ∀ (fs fs1 : FS), runEnsures es fs = (fs1, none) →
      ∀ p ∈ es, fs1.lookup p = some .folder := by
  induction es with
  | nil => intro fs fs1 h p hp; cases hp
  | cons p ps ih =>
    intro fs fs1 h r hr
    rw [runEnsures] at h
    cases hens : ensureFolderExists fs p with
    | error err => rw [hens] at h; cases congrArg Prod.snd h
    | ok fs' =>
      rw [hens] at h
      have hpfolder : fs'.lookup p = some .folder := by
        rw [ensureFolderExists] at hens
        cases hlp : fs.lookup p with
        | none =>
          rw [hlp] at hens
          obtain rfl : FS.set fs p .folder = fs' := congrArg id (Except.ok.inj hens)
          exact FS.lookup_set_self fs p .folder
        | some entry =>
          cases entry with
          | folder =>
            rw [hlp] at hens
            obtain rfl : fs = fs' := congrArg id (Except.ok.inj hens)
            exact hlp
          | file c => rw [hlp] at hens; cases hens
      rcases List.mem_cons.mp hr with rfl | hrs
      · exact runEnsures_preserves ps fs' fs1 h r .folder hpfolder
      · exact ih fs' fs1 h r hrs

theorem runEnsures_WF (es : List String) :
    ∀ (fs : FS), FS.WF fs → FS.WF (runEnsures es fs).1 := by
  induction es with
  | nil => intro fs hwf; exact hwf
  | cons p ps ih =>
    intro fs hwf
    rw [runEnsures]
    cases hens : ensureFolderExists fs p with
    | error err => exact hwf
    | ok fs' =>
      apply ih
      rw [ensureFolderExists] at hens
      cases hlp : fs.lookup p with
      | none =>
        rw [hlp] at hens
        obtain rfl : FS.set fs p .folder = fs' := congrArg id (Except.ok.inj hens)
        exact FS.WF_set fs p .folder hwf
      | some entry =>
        cases entry with
        | folder =>
          rw [hlp] at hens
          obtain rfl : fs = fs' := congrArg id (Except.ok.inj hens)
          exact hwf
        | file c => rw [hlp] at hens; cases hens

theorem runEnsures_fix (es : List String) :
    ∀ (fs : FS), (∀ p ∈ es, fs.lookup p = some .folder) → runEnsures es fs = (fs, none) := by
  induction es with
  | nil => intro fs _; rfl
  | cons p ps ih =>
    intro fs h
    rw [runEnsures, ensureFolderExists, h p (List.mem_cons_self _ _)]
    exact ih fs fun r hr => h r (List.mem_cons_of_mem p hr)

theorem lastWrite_isSome_of_mem (q : String) (c : String) :
    ∀ (ws : List (String × String)), (q, c) ∈ ws → (lastWrite q ws).isSome := by
  intro ws
  induction ws with
  | nil => intro h; cases h
  | cons pc rest ih =>
    intro h
    obtain ⟨p, d⟩ := pc
    rw [lastWrite]
    cases hrest : lastWrite q rest with
    | some e => rfl
    | none =>
      rcases List.mem_cons.mp h with heq | hmem
      · obtain ⟨rfl, rfl⟩ := Prod.mk.inj heq
        rw [if_pos rfl]
        rfl
      · have := ih hmem
        rw [hrest] at this
        cases this

theorem runWrites_ok_trace :
    ∀ (ws : List (String × String)) (fs : FS), (runWrites ws fs).err = none →
      (runWrites ws fs).writes = ws := by
  intro ws
  induction ws with
  | nil => intro fs _; rfl
  | cons pc rest ih =>
    intro fs h
    obtain ⟨p, c⟩ := pc
    rw [runWrites] at h ⊢
    cases hw : createOrUpdateFile fs p c with
    | error e => rw [hw] at h; cases h
    | ok fs' =>
      rw [hw] at h
      exact congrArg ((p, c) :: ·) (ih fs' h)

theorem runWrites_ok_lookup :
    ∀ (ws : List (String × String)) (fs : FS), (runWrites ws fs).err = none →
      ∀ q, (runWrites ws fs).fs.lookup q
        = (match lastWrite q ws with
           | some c => some (.file c)
           | none => fs.lookup q) := by
  intro ws
  induction ws with
  | nil => intro fs _ q; rfl
  | cons pc rest ih =>
    intro fs h q
    obtain ⟨p, c⟩ := pc
    rw [runWrites] at h ⊢
    cases hw : createOrUpdateFile fs p c with
    | error e => rw [hw] at h; cases h
    | ok fs' =>
      rw [hw] at h
      show (runWrites rest fs').fs.lookup q = _
      rw [ih fs' h q, lastWrite]
      cases hlast : lastWrite q rest with
      | some d => rfl
      | none =>
        have hfs' : fs' = FS.set fs p (.file c) := by
          rw [createOrUpdateFile] at hw
          cases hlp : fs.lookup p with
          | none => rw [hlp] at hw; exact (Except.ok.inj hw).symm
          | some entry =>
            cases entry with
            | file d => rw [hlp] at hw; exact (Except.ok.inj hw).symm
            | folder => rw [hlp] at hw; cases hw
        by_cases hpq : p = q
        · subst hpq
          rw [if_pos rfl, hfs', FS.lookup_set_self]
        · rw [if_neg hpq, hfs', FS.lookup_set_ne fs p q _ (Ne.symm hpq)]

theorem runWrites_preserves_folder :
    ∀ (ws : List (String × String)) (fs : FS), (runWrites ws fs).err = none →
      ∀ q, fs.lookup q = some .folder → (runWrites ws fs).fs.lookup q = some .folder := by
  intro ws
  induction ws with
  | nil => intro fs _ q hq; exact hq
  | cons pc rest ih =>
    intro fs h q hq
    obtain ⟨p, c⟩ := pc
    rw [runWrites] at h ⊢
    cases hw : createOrUpdateFile fs p c with
    | error e => rw [hw] at h; cases h
    | ok fs' =>
      rw [hw] at h
      have hpq : p ≠ q := by
        intro hpq
        subst hpq
        rw [createOrUpdateFile, hq] at hw
        cases hw
      have hfs' : fs' = FS.set fs p (.file c) := by
        rw [createOrUpdateFile] at hw
        cases hlp : fs.lookup p with
        | none => rw [hlp] at hw; exact (Except.ok.inj hw).symm
        | some entry =>
          cases entry with
          | file d => rw [hlp] at hw; exact (Except.ok.inj hw).symm
          | folder => rw [hlp] at hw; cases hw
      exact ih fs' h q (by rw [hfs', FS.lookup_set_ne fs p q _ (Ne.symm hpq)]; exact hq)

theorem runWrites_WF :
    ∀ (ws : List (String × String)) (fs : FS), FS.WF fs → FS.WF (runWrites ws fs).fs := by
  intro ws
  induction ws with
  | nil => intro fs hwf; exact hwf
  | cons pc rest ih =>
    intro fs hwf
    obtain ⟨p, c⟩ := pc
    rw [runWrites]
    cases hw : createOrUpdateFile fs p c with
    | error e => exact hwf
    | ok fs' =>
      apply ih
      rw [createOrUpdateFile] at hw
      cases hlp : fs.lookup p with
      | none =>
        rw [hlp] at hw
        rw [← (Except.ok.inj hw)]
        exact FS.WF_set fs p _ hwf
      | some entry =>
        cases entry with
        | file d =>
          rw [hlp] at hw
          rw [← (Except.ok.inj hw)]
          exact FS.WF_set fs p _ hwf
        | folder => rw [hlp] at hw; cases hw

theorem runWrites_inplace :
    ∀ (ws : List (String × String)) (fs : FS),
      (∀ pc ∈ ws, ∃ c0, fs.lookup pc.1 = some (.file c0)) →
      (runWrites ws fs).err = none
      ∧ (runWrites ws fs).fs.map Prod.fst = fs.map Prod.fst := by
  intro ws
  induction ws with
  | nil => intro fs _; exact ⟨rfl, rfl⟩
  | cons pc rest ih =>
    intro fs h
    obtain ⟨p, c⟩ := pc
    obtain ⟨c0, hc0⟩ := h (p, c) (List.mem_cons_self _ _)
    rw [runWrites]
    have hw : createOrUpdateFile fs p c = .ok (FS.set fs p (.file c)) := by
      rw [createOrUpdateFile, hc0]
    rw [hw]
    have hpresent : (fs.lookup p).isSome := by rw [hc0]; rfl
    have hkeys : (FS.set fs p (.file c)).map Prod.fst = fs.map Prod.fst :=
      FS.keys_set_present fs p _ hpresent
    have hrest : ∀ pc ∈ rest, ∃ c0, (FS.set fs p (.file c)).lookup pc.1 = some (.file c0) := by
      intro qc hqc
      by_cases hqp : qc.1 = p
      · exact ⟨c, by rw [hqp, FS.lookup_set_self]⟩
      · obtain ⟨d, hd⟩ := h qc (List.mem_cons_of_mem _ hqc)
        exact ⟨d, by rw [FS.lookup_set_ne fs p qc.1 _ hqp]; exact hd⟩
    obtain ⟨herr, hk⟩ := ih (FS.set fs p (.file c)) hrest
    refine ⟨herr, ?_⟩
    rw [show (⟨(runWrites rest (FS.set fs p (.file c))).fs,
        (runWrites rest (FS.set fs p (.file c))).err,
        (p, c) :: (runWrites rest (FS.set fs p (.file c))).writes⟩ : SyncOut).fs
      = (runWrites rest (FS.set fs p (.file c))).fs from rfl]
    rw [hk, hkeys]

theorem lookup_ext :
    ∀ (l1 l2 : FS), l1.map Prod.fst = l2.map Prod.fst → (l1.map Prod.fst).Nodup →
      (∀ p, l1.lookup p = l2.lookup p) → l1 = l2 := by
  intro l1
  induction l1 with
  | nil =>
    intro l2 hk _ _
    cases l2 with
    | nil => rfl
    | cons e es => cases hk
  | cons e1 t1 ih =>
    intro l2 hk hnd hl
    cases l2 with
    | nil => cases hk
    | cons e2 t2 =>
      obtain ⟨k1, v1⟩ := e1
      obtain ⟨k2, v2⟩ := e2
      rw [List.map_cons, List.map_cons] at hk
      obtain ⟨hkk, hkt⟩ := List.cons.inj hk
      subst hkk
      rw [List.map_cons, List.nodup_cons] at hnd
      have hv : v1 = v2 := by
        have hh := hl k1
        rw [List.lookup_cons_self, List.lookup_cons_self] at hh
        exact Option.some.inj hh
      subst hv
      congr 1
      apply ih t2 hkt hnd.2
      intro p
      by_cases hp : p = k1
      · subst hp
        have h1 : t1.lookup p = none := by
          rw [List.lookup_eq_none_iff]
          intro pr hpr
          rw [bne_iff_ne]
          intro hpe
          have hm : pr.1 ∈ t1.map Prod.fst := List.mem_map_of_mem Prod.fst hpr
          rw [← hpe] at hm
          exact hnd.1 hm
        have h2 : t2.lookup p = none := by
          rw [List.lookup_eq_none_iff]
          intro pr hpr
          rw [bne_iff_ne]
          intro hpe
          have hm : pr.1 ∈ t2.map Prod.fst := List.mem_map_of_mem Prod.fst hpr
          rw [← hkt] at hm
          rw [← hpe] at hm
          exact hnd.1 hm
        rw [h1, h2]
      · have hh := hl p
        rw [List.lookup_cons, List.lookup_cons, beq_eq_false_iff_ne.mpr hp] at hh
        exact hh

/-- Replaying a successful ensure-then-write plan is the identity on the
    store: every ensure finds its folder, every write overwrites its file
    with the content it already holds (after the last write to that path). -/
theorem runPlan_idem (es : List String) (ws : List (String × String)) (fs : FS)
    (hwf : FS.WF fs) (h : (runPlan es ws fs).err = none) :
    runPlan es ws ((runPlan es ws fs).fs) = ⟨(runPlan es ws fs).fs, none, ws⟩
    ∧ (runPlan es ws fs).writes = ws := by
  cases hE : runEnsures es fs with
  | mk fsE errE =>
    cases errE with
    | some e =>
      rw [runPlan, hE] at h
      cases h
    | none =>
      have hplan : runPlan es ws fs = runWrites ws fsE := by rw [runPlan, hE]
      rw [hplan] at h ⊢
      have hfolders : ∀ p ∈ es, fsE.lookup p = some .folder :=
        runEnsures_folders es fs fsE hE
      have hWFE : FS.WF fsE := by
        have := runEnsures_WF es fs hwf
        rw [hE] at this
        exact this
      have htrace := runWrites_ok_trace ws fsE h
      have hlook := runWrites_ok_lookup ws fsE h
      have hfold : ∀ p ∈ es, (runWrites ws fsE).fs.lookup p = some .folder :=
        fun p hp => runWrites_preserves_folder ws fsE h p (hfolders p hp)
      have hWF1 : FS.WF (runWrites ws fsE).fs := runWrites_WF ws fsE hWFE
      have hinplace : ∀ pc ∈ ws, ∃ c0,
          (runWrites ws fsE).fs.lookup pc.1 = some (.file c0) := by
        intro pc hpc
        obtain ⟨p, c⟩ := pc
        have hsome := lastWrite_isSome_of_mem p c ws hpc
        cases hlw : lastWrite p ws with
        | none => rw [hlw] at hsome; cases hsome
        | some d =>
          refine ⟨d, ?_⟩
          rw [hlook p, hlw]
      obtain ⟨herr2, hkeys⟩ := runWrites_inplace ws (runWrites ws fsE).fs hinplace
      have hlook2 := runWrites_ok_lookup ws (runWrites ws fsE).fs herr2
      have htrace2 := runWrites_ok_trace ws (runWrites ws fsE).fs herr2
      have hfs2 : (runWrites ws (runWrites ws fsE).fs).fs = (runWrites ws fsE).fs := by
        apply lookup_ext _ _ hkeys (by rw [hkeys]; exact hWF1)
        intro q
        rw [hlook2 q, hlook q]
        cases hlw : lastWrite q ws <;> rfl
      refine ⟨?_, htrace⟩
      rw [runPlan, runEnsures_fix es _ hfold]
      show runWrites ws (runWrites ws fsE).fs = _
      calc runWrites ws (runWrites ws fsE).fs
          = ⟨(runWrites ws (runWrites ws fsE).fs).fs,
             (runWrites ws (runWrites ws fsE).fs).err,
             (runWrites ws (runWrites ws fsE).fs).writes⟩ := rfl
      _ = ⟨(runWrites ws fsE).fs, none, ws⟩ := by rw [hfs2, herr2, htrace2]

/-- One `syncBookHighlights` run is exactly its ensure-then-write plan. -/
theorem syncBookHighlights_eq_runPlan (s : Settings) (book : Book)
    (highlights : List Highlight) (rand : Nat → String) (fs : FS) :
    syncBookHighlights s book highlights rand fs
      = runPlan (bookSyncEnsures s book highlights) (bookSyncWrites s book highlights rand) fs := by
  rw [syncBookHighlights, syncBookRun, runPlan, bookSyncEnsures, List.singleton_append,
    runEnsures]
  cases hens : ensureFolderExists fs (bookFolderPath s book) with
  | error e => rfl
  | ok fs1 =>
    show (match runEnsures
          (if ¬highlights.isEmpty ∧ s.createNotePerHighlight
           then [highlightsFolderPath s book] else []) fs1 with
        | (fs2, some e) => (⟨fs2, some e, []⟩ : SyncOut)
        | (fs2, none) => runWrites (bookSyncWrites s book highlights rand) fs2)
      = match runEnsures
          (if ¬highlights.isEmpty ∧ s.createNotePerHighlight
           then [highlightsFolderPath s book] else []) fs1 with
        | (fs2, none) => runWrites (bookSyncWrites s book highlights rand) fs2
        | (fs2, some e) => (⟨fs2, some e, []⟩ : SyncOut)
    cases hrest : runEnsures
        (if ¬highlights.isEmpty ∧ s.createNotePerHighlight
         then [highlightsFolderPath s book] else []) fs1 with
    | mk fs2 err2 =>
      cases err2 with
      | none => rfl
      | some e => rfl

theorem mapWithIdx_congr (f1 f2 : Nat → Highlight → String) (l : List Highlight)
    (h : ∀ i a, a ∈ l → f1 i a = f2 i a) :
    ∀ n, mapWithIdx f1 n l = mapWithIdx f2 n l := by
  induction l with
  | nil => intro n; rfl
  | cons a as ih =>
    intro n
    rw [mapWithIdx, mapWithIdx, h n a (List.mem_cons_self _ _),
      ih (fun i x hx => h i x (List.mem_cons_of_mem a hx)) (n + 1)]

theorem formatListItem_rand_indep (r1 r2 : String) (hl : Highlight) (hid : hl.id ≠ "") :
    formatSingleHighlightAsListItem r1 hl = formatSingleHighlightAsListItem r2 hl := by
  rw [formatSingleHighlightAsListItem, formatSingleHighlightAsListItem, if_pos hid, if_pos hid]

/-- The write plan does not depend on the random block-id fallback when every
    highlight id is non-empty. -/
theorem bookSyncWrites_rand_indep (s : Settings) (book : Book)
    (highlights : List Highlight) (r1 r2 : Nat → String)
    (hids : ∀ hl ∈ highlights, hl.id ≠ "") :
    bookSyncWrites s book highlights r1 = bookSyncWrites s book highlights r2 := by
  rw [bookSyncWrites, bookSyncWrites]
  by_cases hempty : highlights.isEmpty
  · rw [if_pos hempty, if_pos hempty]
  · rw [if_neg hempty, if_neg hempty]
    by_cases hmode : s.createNotePerHighlight = true
    · rw [if_pos hmode, if_pos hmode]
    · rw [if_neg hmode, if_neg hmode]
      rw [mapWithIdx_congr (fun i hl => formatSingleHighlightAsListItem (r1 i) hl)
        (fun i hl => formatSingleHighlightAsListItem (r2 i) hl) highlights
        (fun i a ha => formatListItem_rand_indep (r1 i) (r2 i) a (hids a ha)) 0]

/-- C1: for every book and every unchanged highlight list with non-empty ids,
    a second `syncBookHighlights` run in the same mode replays exactly the
    same writes (byte-identical contents, independent of the random block-id
    source), succeeds, and leaves the file store unchanged: each generated
    file is overwritten with the bytes the first run wrote. -/
theorem c1_sync_idempotent (s : Settings) (book : Book) (highlights : List Highlight)
    (r1 r2 : Nat → String) (fs0 : FS) (hwf : FS.WF fs0)
    (hids : ∀ hl ∈ highlights, hl.id ≠ "")
    (hok : (syncBookHighlights s book highlights r1 fs0).err = none) :
    syncBookHighlights s book highlights r2 ((syncBookHighlights s book highlights r1 fs0).fs)
      = ⟨(syncBookHighlights s book highlights r1 fs0).fs, none,
         (syncBookHighlights s book highlights r1 fs0).writes⟩ := by
  rw [syncBookHighlights_eq_runPlan s book highlights r1] at hok ⊢
  rw [syncBookHighlights_eq_runPlan s book highlights r2]
  rw [bookSyncWrites_rand_indep s book highlights r2 r1 hids]
  obtain ⟨hidem, htrace⟩ := runPlan_idem (bookSyncEnsures s book highlights)
      (bookSyncWrites s book highlights r1) fs0 hwf hok
  rw [hidem, htrace]

/-- Witness for C1: the concrete book `wBook` with highlights `[wH1, wH2]`
    synced twice into an empty vault, in aggregate mode. -/
theorem c1_sync_idempotent_witness :
    syncBookHighlights wSettings wBook [wH1, wH2] wRand
        ((syncBookHighlights wSettings wBook [wH1, wH2] wRand []).fs)
      = ⟨(syncBookHighlights wSettings wBook [wH1, wH2] wRand []).fs, none,
         (syncBookHighlights wSettings wBook [wH1, wH2] wRand []).writes⟩ :=
  c1_sync_idempotent wSettings wBook [wH1, wH2] wRand wRand []
    (by rw [FS.WF]; decide) (by decide) (by decide)
